import Mathlib

/-!
Verification of the checkpoint/resume batch scripts of the
congestion-pricing-sentiment-analysis repository.

Strings are modelled as `List Char`; CSV result rows are modelled as
key/payload pairs `Nat × Nat` (the key column is `video_id` /
`channel_id`); the output file on disk is modelled by `DiskFile`, with a
constructor for a file the CSV reader cannot parse and a flag recording
whether the table has the key column.  Per-item handlers (network
fetch + parse) are modelled as functions `Nat → Option Nat`, `none`
standing for a raised-and-caught per-item exception.
-/

namespace CongestionPricing

/-! ## youtube.py: parse_duration

`parse_duration` applies `re.match(r"PT(?:(\d+)H)?(?:(\d+)M)?(?:(\d+)S)?", s)`
and sums `3600*h + 60*m + s` over the matched groups, returning 0 when the
match fails (which, since everything after the literal `PT` is optional,
happens exactly when the string does not start with `PT`) or when the
string is empty.  Each optional group `(?:(\d+)X)?` consumes a maximal
nonempty digit run followed immediately by the letter `X`, or nothing:
backtracking to a shorter digit run can never succeed because the character
following a shorter run is another digit, not the letter.  Digits are
modelled as ASCII decimal digits. -/

namespace Youtube

/-- Numeric value of a decimal digit string, as Python `int()` computes it
on the regex group (leading zeros allowed). -/
def natOfDigits (l : List Char) : Nat :=
  l.foldl (fun a c => 10 * a + (c.toNat - 48)) 0

/-- One optional component `(?:(\d+)X)?` of the duration regex: consume a
maximal nonempty digit run followed by `letter`, returning its value and
the remainder; otherwise consume nothing and contribute 0. -/
def parseComponent (letter : Char) (s : List Char) : Nat × List Char :=
  let ds := s.takeWhile Char.isDigit
  let rest := s.dropWhile Char.isDigit
  if ds ≠ [] ∧ rest.head? = some letter then (natOfDigits ds, rest.tail)
  else (0, s)

/-- `parse_duration` from youtube.py (lines 22-46). -/
def parse_duration (s : List Char) : Nat :=
  match s with
  | 'P' :: 'T' :: rest =>
    let h := parseComponent 'H' rest
    let m := parseComponent 'M' h.2
    let sec := parseComponent 'S' m.2
    h.1 * 3600 + m.1 * 60 + sec.1
  | _ => 0

/-- Rendered form of one optional duration component: the digit string
followed by its letter, or nothing. -/
def compStr (letter : Char) : Option (List Char) → List Char
  | none => []
  | some l => l ++ [letter]

/-- Render an ISO-8601 duration `PT{h}H{m}M{s}S` with each component
optional, the components given as digit strings. -/
def renderDuration (dh dm ds : Option (List Char)) : List Char :=
  'P' :: 'T' :: (compStr 'H' dh ++ (compStr 'M' dm ++ compStr 'S' ds))

/-- Value of an optional component: 0 when absent. -/
def optVal : Option (List Char) → Nat
  | none => 0
  | some l => natOfDigits l

/-- A digit string: nonempty, all ASCII digits. -/
def DigitStr (l : List Char) : Prop := l ≠ [] ∧ ∀ c ∈ l, c.isDigit = true

/-- An optional component is either absent or a digit string. -/
def OptDigitStr : Option (List Char) → Prop
  | none => True
  | some l => DigitStr l

theorem takeWhile_digits_append (l : List Char) (c : Char) (rest : List Char)
    (hd : ∀ x ∈ l, x.isDigit = true) (hc : c.isDigit = false) :
    (l ++ c :: rest).takeWhile Char.isDigit = l ∧
    (l ++ c :: rest).dropWhile Char.isDigit = c :: rest := by
  induction l with
  | nil => simp [List.takeWhile, List.dropWhile, hc]
  | cons a t ih =>
    have ha : a.isDigit = true := hd a (by simp)
    have ht : ∀ x ∈ t, x.isDigit = true := fun x hx => hd x (by simp [hx])
    have := ih ht
    simp [List.takeWhile, List.dropWhile, ha, this.1, this.2]

theorem parseComponent_hit (letter : Char) (l : List Char) (rest : List Char)
    (hd : DigitStr l) (hl : letter.isDigit = false) :
    parseComponent letter (l ++ letter :: rest) = (natOfDigits l, rest) := by
  obtain ⟨hne, hdig⟩ := hd
  have h := takeWhile_digits_append l letter rest hdig hl
  simp [parseComponent, h.1, h.2, hne]

theorem parseComponent_miss (letter : Char) (s : List Char)
    (h : ∀ l rest, DigitStr l → s ≠ l ++ letter :: rest) :
    parseComponent letter s = (0, s) := by
  by_cases hds : s.takeWhile Char.isDigit ≠ [] ∧
      (s.dropWhile Char.isDigit).head? = some letter
  · exfalso
    obtain ⟨hne, hhd⟩ := hds
    obtain ⟨c, rest', hcr⟩ : ∃ c rest', s.dropWhile Char.isDigit = c :: rest' := by
      cases hh : s.dropWhile Char.isDigit with
      | nil => rw [hh] at hhd; simp at hhd
      | cons c rest' => exact ⟨c, rest', rfl⟩
    have hc : c = letter := by rw [hcr] at hhd; simpa using hhd
    have hdig : ∀ x ∈ s.takeWhile Char.isDigit, x.isDigit = true :=
      fun x hx => List.mem_takeWhile_imp hx
    have hsplit : s = s.takeWhile Char.isDigit ++ (letter :: rest') := by
      conv_lhs => rw [← List.takeWhile_append_dropWhile (p := Char.isDigit) (l := s)]
      rw [hcr, hc]
    exact h (s.takeWhile Char.isDigit) rest' ⟨hne, hdig⟩ hsplit
  · simp only [parseComponent]
    split
    next hcond => exact absurd hcond hds
    next => rfl

/-- A digit string followed by a non-matching letter cannot be re-split as a
digit string followed by that letter was already excluded; helper: a string
that is `[]` or starts with a letter `m ≠` digit cannot be
`l ++ letter :: rest` for a digit string `l` whose letter differs. -/
theorem not_digit_split_of_head (letter : Char) (s : List Char)
    (hs : ∀ c, s.head? = some c → c.isDigit = false ∧ c ≠ letter) :
    ∀ l rest, DigitStr l → s ≠ l ++ letter :: rest := by
  intro l rest hd heq
  obtain ⟨hne, hdig⟩ := hd
  cases l with
  | nil =>
    subst heq
    have := hs letter (by simp)
    exact this.2 rfl
  | cons a t =>
    subst heq
    have := hs a (by simp)
    exact absurd (hdig a (by simp)) (by simp [this.1])

theorem takeWhile_digits_all (l : List Char) (hd : ∀ x ∈ l, x.isDigit = true) :
    l.takeWhile Char.isDigit = l ∧ l.dropWhile Char.isDigit = [] := by
  induction l with
  | nil => simp
  | cons a t ih =>
    have ha : a.isDigit = true := hd a (by simp)
    have ht := ih (fun x hx => hd x (by simp [hx]))
    simp [List.takeWhile, List.dropWhile, ha, ht.1, ht.2]

theorem parseComponent_skip (letter : Char) (l : List Char) (c : Char)
    (rest : List Char) (hdig : ∀ x ∈ l, x.isDigit = true)
    (hc : c.isDigit = false) (hne : c ≠ letter) :
    parseComponent letter (l ++ c :: rest) = (0, l ++ c :: rest) := by
  have h := takeWhile_digits_append l c rest hdig hc
  simp only [parseComponent, h.1, h.2]
  rw [if_neg]
  intro hcond
  exact hne (by simpa using hcond.2)

theorem parseComponent_all_digits (letter : Char) (l : List Char)
    (hdig : ∀ x ∈ l, x.isDigit = true) :
    parseComponent letter l = (0, l) := by
  have h := takeWhile_digits_all l hdig
  simp only [parseComponent, h.1, h.2]
  rw [if_neg]
  intro hcond
  simp at hcond

theorem parseComponent_tail_skip (letter : Char) (hM : ('M' : Char) ≠ letter)
    (hS : ('S' : Char) ≠ letter) (dm ds : Option (List Char))
    (h2 : OptDigitStr dm) (h3 : OptDigitStr ds) :
    parseComponent letter (compStr 'M' dm ++ compStr 'S' ds) =
      (0, compStr 'M' dm ++ compStr 'S' ds) := by
  cases dm with
  | some lm =>
    have : compStr 'M' (some lm) ++ compStr 'S' ds = lm ++ 'M' :: compStr 'S' ds := by
      simp [compStr]
    rw [this]
    exact parseComponent_skip letter lm 'M' _ h2.2 (by decide) hM
  | none =>
    cases ds with
    | some ls =>
      have : compStr 'M' none ++ compStr 'S' (some ls) = ls ++ 'S' :: [] := by
        simp [compStr]
      rw [this]
      exact parseComponent_skip letter ls 'S' [] h3.2 (by decide) hS
    | none => rfl

/-- C10, part (a): on a well-formed `PT{h}H{m}M{s}S` string with each
component optional, `parse_duration` returns `h*3600 + m*60 + s`. -/
theorem parse_duration_render (dh dm ds : Option (List Char))
    (h1 : OptDigitStr dh) (h2 : OptDigitStr dm) (h3 : OptDigitStr ds) :
    parse_duration (renderDuration dh dm ds) =
      optVal dh * 3600 + optVal dm * 60 + optVal ds := by
  have hS : parseComponent 'S' (compStr 'S' ds) = (optVal ds, []) := by
    cases ds with
    | none => rfl
    | some ls =>
      have : compStr 'S' (some ls) = ls ++ 'S' :: [] := by simp [compStr]
      rw [this, parseComponent_hit 'S' ls [] h3 (by decide)]
      rfl
  have hM : parseComponent 'M' (compStr 'M' dm ++ compStr 'S' ds) =
      (optVal dm, compStr 'S' ds) := by
    cases dm with
    | some lm =>
      have : compStr 'M' (some lm) ++ compStr 'S' ds = lm ++ 'M' :: compStr 'S' ds := by
        simp [compStr]
      rw [this, parseComponent_hit 'M' lm _ h2 (by decide)]
      rfl
    | none =>
      cases ds with
      | some ls =>
        have : compStr 'M' none ++ compStr 'S' (some ls) = ls ++ 'S' :: [] := by
          simp [compStr]
        rw [this, parseComponent_skip 'M' ls 'S' [] h3.2 (by decide) (by decide)]
        simp [compStr, optVal]
      | none => rfl
  have hH : parseComponent 'H' (compStr 'H' dh ++ (compStr 'M' dm ++ compStr 'S' ds)) =
      (optVal dh, compStr 'M' dm ++ compStr 'S' ds) := by
    cases dh with
    | some lh =>
      have : compStr 'H' (some lh) ++ (compStr 'M' dm ++ compStr 'S' ds) =
          lh ++ 'H' :: (compStr 'M' dm ++ compStr 'S' ds) := by simp [compStr]
      rw [this, parseComponent_hit 'H' lh _ h1 (by decide)]
      rfl
    | none =>
      have : compStr 'H' none ++ (compStr 'M' dm ++ compStr 'S' ds) =
          compStr 'M' dm ++ compStr 'S' ds := by simp [compStr]
      rw [this, parseComponent_tail_skip 'H' (by decide) (by decide) dm ds h2 h3]
      simp [compStr, optVal]
  simp only [renderDuration, parse_duration, hH, hM, hS]

/-- C10, part (b): any string that does not start with the literal `PT`
(the empty string included) yields 0. -/
theorem parse_duration_no_pt (s : List Char) (h : ∀ rest, s ≠ 'P' :: 'T' :: rest) :
    parse_duration s = 0 := by
  unfold parse_duration
  split
  next rest => exact absurd rfl (h rest)
  next => rfl

/-- C10: for every string of the form `PT{h}H{m}M{s}S` with each of the
hour, minute and second components optional, `parse_duration` returns
`h*3600 + m*60 + s`; for the empty string and for every string not
beginning with `PT` it returns 0; the result is always a non-negative
integer. -/
theorem claim_C10 :
    (∀ dh dm ds, OptDigitStr dh → OptDigitStr dm → OptDigitStr ds →
      parse_duration (renderDuration dh dm ds) =
        optVal dh * 3600 + optVal dm * 60 + optVal ds) ∧
    parse_duration [] = 0 ∧
    (∀ s, (∀ rest, s ≠ 'P' :: 'T' :: rest) → parse_duration s = 0) ∧
    (∀ s, 0 ≤ parse_duration s) :=
  ⟨parse_duration_render, rfl, parse_duration_no_pt, fun _ => Nat.zero_le _⟩

/-- Witness for C10 at concrete inputs: `PT2M18S` parses to 138 seconds and
a string not starting with `PT` parses to 0. -/
theorem claim_C10_witness :
    parse_duration (renderDuration none (some ['2']) (some ['1', '8'])) = 138 ∧
    parse_duration ['p', 't', '5', 'S'] = 0 := by
  constructor
  · have h := claim_C10.1 none (some ['2']) (some ['1', '8']) trivial
      ⟨by decide, by decide⟩ ⟨by decide, by decide⟩
    rw [h]
    decide
  · exact claim_C10.2.2.1 _
      (fun rest hcon => absurd (List.cons.inj hcon).1 (by decide))

end Youtube

/-! ## fetch_transcripts.py: clean_text

`clean_text` (lines 17-39) replaces non-breaking spaces with spaces, then
newlines with spaces, then collapses every maximal run of whitespace
(Python `re.sub(r"\s+", " ", ...)`) into a single ASCII space, and finally
strips leading and trailing whitespace.  Python's `\s` on `str` matches
exactly the characters for which `str.isspace()` holds; `pyWsCodes` lists
their code points. -/

namespace FetchTranscripts

/-- Code points matched by Python's `\s` on `str` (the `str.isspace()`
characters). -/
def pyWsCodes : List Nat :=
  [9, 10, 11, 12, 13, 28, 29, 30, 31, 32, 133, 160, 0x1680,
   0x2000, 0x2001, 0x2002, 0x2003, 0x2004, 0x2005, 0x2006, 0x2007,
   0x2008, 0x2009, 0x200A, 0x2028, 0x2029, 0x202F, 0x205F, 0x3000]

/-- Python regex whitespace class `\s` as a character predicate. -/
def isPyWs (c : Char) : Bool := pyWsCodes.contains c.toNat

/-- The non-breaking space U+00A0. -/
def nbsp : Char := Char.ofNat 160

/-- `text.replace(a, " ")`: replace every occurrence of `a` by a space. -/
def replaceChar (a : Char) (l : List Char) : List Char :=
  l.map (fun c => if c = a then ' ' else c)

/-- `re.sub(r"\s+", " ", text)`: every maximal nonempty run of whitespace
becomes a single space.  `prevWs` records whether the previous character
was part of a whitespace run already emitted as one space. -/
def collapseWsAux : Bool → List Char → List Char
  | _, [] => []
  | true, c :: rest =>
    if isPyWs c then collapseWsAux true rest
    else c :: collapseWsAux false rest
  | false, c :: rest =>
    if isPyWs c then ' ' :: collapseWsAux true rest
    else c :: collapseWsAux false rest

/-- `re.sub(r"\s+", " ", text)`. -/
def collapseWs (l : List Char) : List Char := collapseWsAux false l

/-- Left part of `str.strip()`. -/
def lstripWs (l : List Char) : List Char := l.dropWhile isPyWs

/-- Right part of `str.strip()`. -/
def rstripWs (l : List Char) : List Char := (l.reverse.dropWhile isPyWs).reverse

/-- `str.strip()`. -/
def stripWs (l : List Char) : List Char := rstripWs (lstripWs l)

/-- `clean_text` from fetch_transcripts.py (lines 17-39): replace `\xa0`
with a space, replace `\n` with a space, collapse whitespace runs, strip. -/
def clean_text (s : List Char) : List Char :=
  stripWs (collapseWs (replaceChar '\n' (replaceChar nbsp s)))

/-- Two adjacent characters are not both whitespace. -/
def WsRel (a b : Char) : Prop := ¬(isPyWs a = true ∧ isPyWs b = true)

/-- No two adjacent characters of the list are both whitespace. -/
def NoAdjWs (l : List Char) : Prop := List.Chain' WsRel l

theorem collapseWsAux_true_ws {a : Char} (ha : isPyWs a = true) (t : List Char) :
    collapseWsAux true (a :: t) = collapseWsAux true t := by
  simp [collapseWsAux, ha]

theorem collapseWsAux_false_ws {a : Char} (ha : isPyWs a = true) (t : List Char) :
    collapseWsAux false (a :: t) = ' ' :: collapseWsAux true t := by
  simp [collapseWsAux, ha]

theorem collapseWsAux_nonws {a : Char} (b : Bool) (ha : isPyWs a = false)
    (t : List Char) : collapseWsAux b (a :: t) = a :: collapseWsAux false t := by
  cases b <;> simp [collapseWsAux, ha]

theorem mem_collapseWsAux {c : Char} :
    ∀ (b : Bool) (l : List Char), c ∈ collapseWsAux b l →
      c = ' ' ∨ (c ∈ l ∧ isPyWs c = false) := by
  intro b l
  induction l generalizing b with
  | nil => intro h; cases b <;> simp [collapseWsAux] at h
  | cons a t ih =>
    intro h
    by_cases ha : isPyWs a = true
    · cases b with
      | true =>
        rw [collapseWsAux_true_ws ha] at h
        rcases ih true h with h' | h'
        · exact Or.inl h'
        · exact Or.inr ⟨by simp [h'.1], h'.2⟩
      | false =>
        rw [collapseWsAux_false_ws ha, List.mem_cons] at h
        rcases h with h | h
        · exact Or.inl h
        · rcases ih true h with h' | h'
          · exact Or.inl h'
          · exact Or.inr ⟨by simp [h'.1], h'.2⟩
    · rw [collapseWsAux_nonws b (by simpa using ha), List.mem_cons] at h
      rcases h with h | h
      · subst h
        exact Or.inr ⟨by simp, by simpa using ha⟩
      · rcases ih false h with h' | h'
        · exact Or.inl h'
        · exact Or.inr ⟨by simp [h'.1], h'.2⟩

theorem head?_collapseWsAux_true :
    ∀ (l : List Char) (c : Char), (collapseWsAux true l).head? = some c →
      isPyWs c = false := by
  intro l
  induction l with
  | nil => intro c h; simp [collapseWsAux] at h
  | cons a t ih =>
    intro c h
    by_cases ha : isPyWs a = true
    · rw [collapseWsAux_true_ws ha] at h
      exact ih c h
    · rw [collapseWsAux_nonws true (by simpa using ha), List.head?_cons] at h
      cases h
      simpa using ha

theorem noAdjWs_collapseWsAux :
    ∀ (l : List Char), NoAdjWs (collapseWsAux false l) ∧ NoAdjWs (collapseWsAux true l) := by
  intro l
  induction l with
  | nil => exact ⟨List.chain'_nil, List.chain'_nil⟩
  | cons a t ih =>
    by_cases ha : isPyWs a = true
    · constructor
      · rw [collapseWsAux_false_ws ha]
        refine List.chain'_cons'.mpr ⟨?_, ih.2⟩
        intro y hy
        have hyw : isPyWs y = false :=
          head?_collapseWsAux_true t y (by simpa using hy)
        intro hcon
        rw [hyw] at hcon
        exact Bool.noConfusion hcon.2
      · rw [collapseWsAux_true_ws ha]
        exact ih.2
    · have han : isPyWs a = false := by simpa using ha
      have key : NoAdjWs (a :: collapseWsAux false t) := by
        refine List.chain'_cons'.mpr ⟨?_, ih.1⟩
        intro y _
        intro hcon
        exact ha hcon.1
      constructor
      · rw [collapseWsAux_nonws false han]
        exact key
      · rw [collapseWsAux_nonws true han]
        exact key

theorem collapseWsAux_id (l : List Char)
    (hws : ∀ c ∈ l, isPyWs c = true → c = ' ') (hch : NoAdjWs l) :
    collapseWsAux false l = l ∧
      ((∀ c, l.head? = some c → isPyWs c = false) → collapseWsAux true l = l) := by
  induction l with
  | nil => exact ⟨rfl, fun _ => rfl⟩
  | cons a t ih =>
    have hsplit := List.chain'_cons'.mp hch
    have ih' := ih (fun c hc hw => hws c (by simp [hc]) hw) hsplit.2
    by_cases ha : isPyWs a = true
    · have haSp : a = ' ' := hws a (by simp) ha
      have hthead : ∀ c, t.head? = some c → isPyWs c = false := by
        intro c hc
        have := hsplit.1 c (by simp [hc])
        cases hcw : isPyWs c with
        | false => rfl
        | true => exact absurd ⟨ha, hcw⟩ this
      constructor
      · rw [collapseWsAux_false_ws ha, ih'.2 hthead, haSp]
      · intro hhead
        have := hhead a (by simp)
        rw [ha] at this
        exact Bool.noConfusion this
    · have han : isPyWs a = false := by simpa using ha
      constructor
      · rw [collapseWsAux_nonws false han, ih'.1]
      · intro _
        rw [collapseWsAux_nonws true han, ih'.1]

theorem noAdjWs_dropWhile (p : Char → Bool) :
    ∀ (l : List Char), NoAdjWs l → NoAdjWs (l.dropWhile p) := by
  intro l
  induction l with
  | nil => intro h; simpa using h
  | cons a t ih =>
    intro h
    rw [List.dropWhile_cons]
    by_cases ha : p a = true
    · rw [if_pos ha]
      exact ih (List.chain'_cons'.mp h).2
    · rw [if_neg ha]
      exact h

theorem head?_dropWhile_false (p : Char → Bool) (l : List Char) (c : Char)
    (h : (l.dropWhile p).head? = some c) : p c = false := by
  have hm := List.head?_dropWhile_not p l
  rw [h] at hm
  exact hm

theorem noAdjWs_reverse (l : List Char) (h : NoAdjWs l) : NoAdjWs l.reverse := by
  rw [NoAdjWs, List.chain'_reverse]
  exact List.Chain'.imp (fun a b hab hcon => hab ⟨hcon.2, hcon.1⟩) h

theorem rstripWs_isPrefix (l : List Char) : rstripWs l <+: l := by
  have hsuf : (l.reverse.dropWhile isPyWs) <:+ l.reverse :=
    List.dropWhile_suffix isPyWs
  have : ((l.reverse.dropWhile isPyWs).reverse).reverse <:+ l.reverse := by
    rwa [List.reverse_reverse]
  exact List.reverse_suffix.mp this

theorem head?_of_isPrefix {l p : List Char} {c : Char} (hp : p <+: l)
    (hc : p.head? = some c) : l.head? = some c := by
  obtain ⟨t, ht⟩ := hp
  cases p with
  | nil => simp at hc
  | cons a q =>
    cases hc
    rw [← ht]
    rfl

theorem getLast?_rstripWs (l : List Char) (c : Char)
    (h : (rstripWs l).getLast? = some c) : isPyWs c = false := by
  rw [rstripWs, List.getLast?_reverse] at h
  exact head?_dropWhile_false isPyWs l.reverse c h

theorem rstripWs_subset (l : List Char) : rstripWs l ⊆ l :=
  (rstripWs_isPrefix l).sublist.subset

theorem noAdjWs_rstripWs (l : List Char) (h : NoAdjWs l) : NoAdjWs (rstripWs l) := by
  have h1 := noAdjWs_reverse l h
  have h2 := noAdjWs_dropWhile isPyWs l.reverse h1
  exact noAdjWs_reverse _ h2

theorem lstripWs_eq_self (l : List Char)
    (h : ∀ c, l.head? = some c → isPyWs c = false) : lstripWs l = l := by
  cases l with
  | nil => rfl
  | cons a t =>
    rw [lstripWs, List.dropWhile_cons, if_neg]
    simp [h a rfl]

theorem rstripWs_eq_self (l : List Char)
    (h : ∀ c, l.getLast? = some c → isPyWs c = false) : rstripWs l = l := by
  rw [rstripWs]
  have : l.reverse.dropWhile isPyWs = l.reverse := by
    cases hr : l.reverse with
    | nil => rfl
    | cons a t =>
      rw [List.dropWhile_cons, if_neg]
      have : l.getLast? = some a := by
        rw [← List.head?_reverse, hr]
        rfl
      simp [h a this]
  rw [this, List.reverse_reverse]

theorem replaceChar_id (a : Char) (l : List Char) (h : ∀ c ∈ l, c ≠ a) :
    replaceChar a l = l := by
  rw [replaceChar]
  have : ∀ c ∈ l, (if c = a then ' ' else c) = id c := by
    intro c hc
    rw [if_neg (h c hc)]
    rfl
  rw [List.map_congr_left this, List.map_id]

theorem stripWs_subset (l : List Char) : stripWs l ⊆ l := by
  intro c hc
  have h1 : c ∈ lstripWs l := rstripWs_subset _ hc
  exact (List.dropWhile_sublist isPyWs).subset h1

theorem allWs_clean_text (s : List Char) :
    ∀ c ∈ clean_text s, isPyWs c = true → c = ' ' := by
  intro c hc hw
  have h1 : c ∈ collapseWs (replaceChar '\n' (replaceChar nbsp s)) :=
    stripWs_subset _ hc
  rcases mem_collapseWsAux false _ h1 with h | h
  · exact h
  · rw [h.2] at hw
    exact Bool.noConfusion hw

theorem noAdjWs_clean_text (s : List Char) : NoAdjWs (clean_text s) := by
  unfold clean_text stripWs lstripWs
  have h1 := (noAdjWs_collapseWsAux (replaceChar '\n' (replaceChar nbsp s))).1
  exact noAdjWs_rstripWs _ (noAdjWs_dropWhile isPyWs _ h1)

theorem head?_clean_text (s : List Char) :
    ∀ c, (clean_text s).head? = some c → isPyWs c = false := by
  intro c h
  unfold clean_text stripWs at h
  have h2 := head?_of_isPrefix (rstripWs_isPrefix _) h
  exact head?_dropWhile_false isPyWs _ c h2

theorem getLast?_clean_text (s : List Char) :
    ∀ c, (clean_text s).getLast? = some c → isPyWs c = false := by
  intro c h
  unfold clean_text stripWs at h
  exact getLast?_rstripWs _ c h

theorem clean_text_idem (s : List Char) :
    clean_text (clean_text s) = clean_text s := by
  have hws : ∀ c ∈ clean_text s, isPyWs c = true → c = ' ' := allWs_clean_text s
  have hch : NoAdjWs (clean_text s) := noAdjWs_clean_text s
  have h1 : replaceChar nbsp (clean_text s) = clean_text s :=
    replaceChar_id _ _ (fun c hc heq => by
      subst heq
      exact absurd (hws nbsp hc (by decide)) (by decide))
  have h2 : replaceChar '\n' (clean_text s) = clean_text s :=
    replaceChar_id _ _ (fun c hc heq => by
      subst heq
      exact absurd (hws '\n' hc (by decide)) (by decide))
  have h3 : collapseWs (clean_text s) = clean_text s :=
    (collapseWsAux_id (clean_text s) hws hch).1
  have h4 : lstripWs (clean_text s) = clean_text s :=
    lstripWs_eq_self _ (head?_clean_text s)
  have h5 : rstripWs (clean_text s) = clean_text s :=
    rstripWs_eq_self _ (getLast?_clean_text s)
  show stripWs (collapseWs (replaceChar '\n' (replaceChar nbsp (clean_text s)))) =
    clean_text s
  rw [h1, h2, h3]
  unfold stripWs
  rw [h4, h5]

/-- C9: for every input string, `clean_text` returns a string containing no
non-breaking space, no newline, and no two adjacent whitespace characters,
with no leading or trailing whitespace; consequently `clean_text` is
idempotent. -/
theorem claim_C9 (s : List Char) :
    nbsp ∉ clean_text s ∧
    '\n' ∉ clean_text s ∧
    NoAdjWs (clean_text s) ∧
    (∀ c, (clean_text s).head? = some c → isPyWs c = false) ∧
    (∀ c, (clean_text s).getLast? = some c → isPyWs c = false) ∧
    clean_text (clean_text s) = clean_text s := by
  refine ⟨?_, ?_, noAdjWs_clean_text s, head?_clean_text s,
    getLast?_clean_text s, clean_text_idem s⟩
  · intro hmem
    exact absurd (allWs_clean_text s nbsp hmem (by decide)) (by decide)
  · intro hmem
    exact absurd (allWs_clean_text s '\n' hmem (by decide)) (by decide)

/-- Concrete input for the C9 witness. -/
def cleanTextExample : List Char := [' ', ' ', 'a', nbsp, '\n', 'b', ' ']

/-- Witness for C9: the claim applied at a concrete string, with the
head-of-output hypothesis discharged by evaluation. -/
theorem claim_C9_witness :
    clean_text (clean_text cleanTextExample) = clean_text cleanTextExample ∧
    isPyWs 'a' = false :=
  ⟨(claim_C9 cleanTextExample).2.2.2.2.2,
   (claim_C9 cleanTextExample).2.2.2.1 'a' (by decide)⟩

end FetchTranscripts

/-! ## Shared disk / batch model

The output CSV is modelled by `DiskFile`: `missing` (no file at the path),
`unreadable` (the CSV reader raises on it), or `table hasKey rows`
(readable, `hasKey` records whether the key column — `video_id` /
`channel_id` — is present; each row is a key/payload pair). -/

/-- The output file on disk. -/
inductive DiskFile where
  | missing : DiskFile
  | unreadable : DiskFile
  | table (hasKey : Bool) (rows : List (Nat × Nat)) : DiskFile
deriving DecidableEq

/-- Rows obtained by reading the file (`pd.read_csv(...).to_dict("records")`);
only ever used by the scripts on a file they could already read. -/
def fileRows : DiskFile → List (Nat × Nat)
  | .table _ rows => rows
  | _ => []

/-- Key column of a readable file that has it. -/
def fileKeys : DiskFile → List Nat
  | .table true rows => rows.map Prod.fst
  | _ => []

/-- Boolean test used when filtering out already-processed IDs. -/
def notIn (p : List Nat) : Nat → Bool := fun v => decide (v ∉ p)

/-- The rows produced by running `handler` over `ids`, keeping successes:
the accumulated `results` list of a run that started empty. -/
def successRows (handler : Nat → Option Nat) (ids : List Nat) : List (Nat × Nat) :=
  ids.filterMap (fun v => (handler v).map (fun d => (v, d)))

/-- `pandas.unique` / `drop_duplicates`: first occurrence kept, order
preserved, modelled with an explicit seen-accumulator. -/
def uniqueFirstAux (seen : List Nat) : List Nat → List Nat
  | [] => []
  | a :: rest =>
    if a ∈ seen then uniqueFirstAux seen rest
    else a :: uniqueFirstAux (a :: seen) rest

/-- `df["video_id"].unique()`. -/
def uniqueFirst (l : List Nat) : List Nat := uniqueFirstAux [] l

theorem mem_uniqueFirstAux {x : Nat} :
    ∀ (l : List Nat) (seen : List Nat),
      x ∈ uniqueFirstAux seen l ↔ x ∈ l ∧ x ∉ seen := by
  intro l
  induction l with
  | nil => intro seen; simp [uniqueFirstAux]
  | cons a rest ih =>
    intro seen
    by_cases ha : a ∈ seen
    · rw [uniqueFirstAux, if_pos ha, ih]
      constructor
      · exact fun h => ⟨by simp [h.1], h.2⟩
      · rintro ⟨h1, h2⟩
        rcases List.mem_cons.mp h1 with h | h
        · subst h; exact absurd ha h2
        · exact ⟨h, h2⟩
    · rw [uniqueFirstAux, if_neg ha, List.mem_cons, ih]
      constructor
      · rintro (h | ⟨h1, h2⟩)
        · subst h; exact ⟨by simp, ha⟩
        · exact ⟨by simp [h1], fun hc => h2 (by simp [hc])⟩
      · rintro ⟨h1, h2⟩
        rcases List.mem_cons.mp h1 with h | h
        · exact Or.inl h
        · by_cases hxa : x = a
          · exact Or.inl hxa
          · exact Or.inr ⟨h, by simp [hxa, h2]⟩

theorem nodup_uniqueFirstAux :
    ∀ (l : List Nat) (seen : List Nat), (uniqueFirstAux seen l).Nodup := by
  intro l
  induction l with
  | nil => intro seen; simp [uniqueFirstAux]
  | cons a rest ih =>
    intro seen
    by_cases ha : a ∈ seen
    · rw [uniqueFirstAux, if_pos ha]
      exact ih seen
    · rw [uniqueFirstAux, if_neg ha]
      refine List.nodup_cons.mpr ⟨?_, ih (a :: seen)⟩
      intro hmem
      exact ((mem_uniqueFirstAux rest (a :: seen)).mp hmem).2 (by simp)

theorem nodup_uniqueFirst (l : List Nat) : (uniqueFirst l).Nodup :=
  nodup_uniqueFirstAux l []

theorem mem_uniqueFirst {x : Nat} {l : List Nat} : x ∈ uniqueFirst l ↔ x ∈ l := by
  rw [uniqueFirst, mem_uniqueFirstAux]
  simp

theorem successRows_nil (h : Nat → Option Nat) : successRows h [] = [] := rfl

theorem successRows_cons (h : Nat → Option Nat) (v : Nat) (l : List Nat) :
    successRows h (v :: l) =
      (match h v with
       | some d => (v, d) :: successRows h l
       | none => successRows h l) := by
  cases hv : h v <;> simp [successRows, List.filterMap_cons, hv]

theorem mem_fst_successRows {handler : Nat → Option Nat} {ids : List Nat}
    {x : Nat} (hx : x ∈ (successRows handler ids).map Prod.fst) : x ∈ ids := by
  simp only [successRows, List.mem_map] at hx
  obtain ⟨p, hp, hpx⟩ := hx
  rw [List.mem_filterMap] at hp
  obtain ⟨v, hv, hveq⟩ := hp
  cases hd : handler v with
  | none => rw [hd] at hveq; simp at hveq
  | some d =>
    rw [hd] at hveq
    simp only [Option.map_some', Option.some.injEq] at hveq
    rw [← hveq] at hpx
    simp at hpx
    rwa [← hpx]

theorem successRows_sublist_keys (handler : Nat → Option Nat) :
    ∀ ids : List Nat, ((successRows handler ids).map Prod.fst).Sublist ids := by
  intro ids
  induction ids with
  | nil => simp [successRows]
  | cons v rest ih =>
    rw [successRows_cons]
    cases hv : handler v with
    | none => exact ih.cons v
    | some d => simpa using ih.cons₂ v

theorem nodup_successRows_keys {handler : Nat → Option Nat} {ids : List Nat}
    (h : ids.Nodup) : ((successRows handler ids).map Prod.fst).Nodup :=
  (successRows_sublist_keys handler ids).nodup h

/-- File on disk after a sequence of full-file writes: the last write, or
the original file when nothing was written. -/
def fileAfter (file : DiskFile) (saves : List (List (Nat × Nat))) : DiskFile :=
  match saves.getLast? with
  | some rows => .table true rows
  | none => file

/-! ## fetch_transcripts.py: the checkpointed fetch loop

`fetch_transcripts` (lines 84-183): dedupe the input video IDs
(`df["video_id"].unique()`), optionally truncate to `max_videos` (only when
`max_videos is not None and max_videos > 0`), read the checkpoint, then for
each ID not in the checkpoint call the transcript API; on success append
the row to `all_transcript_entries` — which starts **empty**, the
checkpointed rows are not loaded back — and rewrite the whole output file
with exactly `all_transcript_entries`; on failure log and continue.  The
file on disk after the run is the last write, or the original file when no
write happened. -/

namespace FetchTranscripts

/-- `load_checkpoint` from fetch_transcripts.py (lines 42-62): missing file
or unreadable file (the `except` branch) give the empty set; a readable
file gives its `video_id` column when present and the empty set otherwise. -/
def load_checkpoint : DiskFile → List Nat
  | .missing => []
  | .unreadable => []
  | .table hasKey rows => if hasKey then rows.map Prod.fst else []

/-- `video_ids[:max_videos]` guarded by
`max_videos is not None and max_videos > 0` (lines 105-106). -/
def limitVideos (maxVideos : Option Int) (ids : List Nat) : List Nat :=
  match maxVideos with
  | some n => if 0 < n then ids.take n.toNat else ids
  | none => ids

/-- In-memory accumulator of the loop: `all_transcript_entries`, the list of
full-file writes performed by `save_checkpoint`, and the IDs passed to the
transcript API (attempted fetches). -/
structure FetchAcc where
  entries : List (Nat × Nat)
  saves : List (List (Nat × Nat))
  calls : List Nat
deriving DecidableEq

/-- One iteration of the `for video_id in video_ids` loop (lines 138-173):
skip if checkpointed; otherwise fetch; on success append the row and save a
checkpoint (full rewrite); on failure just continue. -/
def fetchStep (handler : Nat → Option Nat) (processed : List Nat)
    (st : FetchAcc) (v : Nat) : FetchAcc :=
  if v ∈ processed then st
  else
    match handler v with
    | some d =>
      ⟨st.entries ++ [(v, d)], st.saves ++ [st.entries ++ [(v, d)]],
        st.calls ++ [v]⟩
    | none => ⟨st.entries, st.saves, st.calls ++ [v]⟩

/-- The whole loop. -/
def fetchRunOn (handler : Nat → Option Nat) (processed : List Nat)
    (ids : List Nat) : FetchAcc :=
  ids.foldl (fetchStep handler processed) ⟨[], [], []⟩

/-- Result of one full run of `fetch_transcripts`. -/
structure FetchOut where
  entries : List (Nat × Nat)
  saves : List (List (Nat × Nat))
  calls : List Nat
  file : DiskFile
deriving DecidableEq

/-- `fetch_transcripts(csv_file, output_file, max_videos)` as a function of
the handler (transcript API), the raw `video_id` column, the cap, and the
output file found on disk. -/
def fetch_transcripts_run (handler : Nat → Option Nat) (rawIds : List Nat)
    (maxVideos : Option Int) (file : DiskFile) : FetchOut :=
  let ids := limitVideos maxVideos (uniqueFirst rawIds)
  let acc := fetchRunOn handler (load_checkpoint file) ids
  ⟨acc.entries, acc.saves, acc.calls, fileAfter file acc.saves⟩

/-- State of the output file if the process is killed after the `stop`-th
loop iteration (the file only changes at the per-iteration saves, so an
interruption leaves the file of the run over a prefix of the items). -/
def fetchInterrupt (handler : Nat → Option Nat) (rawIds : List Nat)
    (maxVideos : Option Int) (stop : Nat) (file : DiskFile) : DiskFile :=
  let ids := (limitVideos maxVideos (uniqueFirst rawIds)).take stop
  fileAfter file (fetchRunOn handler (load_checkpoint file) ids).saves

theorem fetchStep_skip (handler : Nat → Option Nat) (processed : List Nat)
    (st : FetchAcc) (v : Nat) (hv : v ∈ processed) :
    fetchStep handler processed st v = st := by
  simp [fetchStep, hv]

theorem foldl_fetchStep_acc (handler : Nat → Option Nat) (processed : List Nat) :
    ∀ (ids : List Nat) (st : FetchAcc),
      (ids.foldl (fetchStep handler processed) st).entries =
        st.entries ++ successRows handler (ids.filter (notIn processed)) ∧
      (ids.foldl (fetchStep handler processed) st).calls =
        st.calls ++ ids.filter (notIn processed) := by
  intro ids
  induction ids with
  | nil => intro st; simp [successRows]
  | cons v rest ih =>
    intro st
    by_cases hv : v ∈ processed
    · have hn : notIn processed v = false := by simp [notIn, hv]
      rw [List.foldl_cons, fetchStep_skip handler processed st v hv,
        List.filter_cons_of_neg (by simp [hn])]
      exact ih st
    · have hn : notIn processed v = true := by simp [notIn, hv]
      rw [List.foldl_cons, List.filter_cons_of_pos (by simp [hn])]
      cases hd : handler v with
      | some d =>
        have hst : fetchStep handler processed st v =
            ⟨st.entries ++ [(v, d)], st.saves ++ [st.entries ++ [(v, d)]],
              st.calls ++ [v]⟩ := by
          simp [fetchStep, hv, hd]
        rw [hst]
        obtain ⟨h1, h2⟩ := ih ⟨st.entries ++ [(v, d)],
          st.saves ++ [st.entries ++ [(v, d)]], st.calls ++ [v]⟩
        refine ⟨?_, ?_⟩
        · rw [h1, successRows_cons, hd]
          simp
        · rw [h2]
          simp
      | none =>
        have hst : fetchStep handler processed st v =
            ⟨st.entries, st.saves, st.calls ++ [v]⟩ := by
          simp [fetchStep, hv, hd]
        rw [hst]
        obtain ⟨h1, h2⟩ := ih ⟨st.entries, st.saves, st.calls ++ [v]⟩
        refine ⟨?_, ?_⟩
        · rw [h1, successRows_cons, hd]
        · rw [h2]
          simp

theorem foldl_fetchStep_last_save (handler : Nat → Option Nat)
    (processed : List Nat) :
    ∀ (ids : List Nat) (st : FetchAcc),
      (ids.foldl (fetchStep handler processed) st).saves.getLast? =
        if successRows handler (ids.filter (notIn processed)) = []
        then st.saves.getLast?
        else some ((ids.foldl (fetchStep handler processed) st).entries) := by
  intro ids
  induction ids with
  | nil => intro st; simp [successRows]
  | cons v rest ih =>
    intro st
    by_cases hv : v ∈ processed
    · have hn : notIn processed v = false := by simp [notIn, hv]
      rw [List.foldl_cons, fetchStep_skip handler processed st v hv,
        List.filter_cons_of_neg (by simp [hn])]
      exact ih st
    · have hn : notIn processed v = true := by simp [notIn, hv]
      rw [List.foldl_cons, List.filter_cons_of_pos (by simp [hn])]
      cases hd : handler v with
      | some d =>
        have hst : fetchStep handler processed st v =
            ⟨st.entries ++ [(v, d)], st.saves ++ [st.entries ++ [(v, d)]],
              st.calls ++ [v]⟩ := by
          simp [fetchStep, hv, hd]
        rw [hst, successRows_cons, hd]
        simp only [ih]
        by_cases hrest : successRows handler (rest.filter (notIn processed)) = []
        · rw [if_pos hrest]
          have hent := (foldl_fetchStep_acc handler processed rest
            ⟨st.entries ++ [(v, d)], st.saves ++ [st.entries ++ [(v, d)]],
              st.calls ++ [v]⟩).1
          rw [if_neg (by simp), hent, hrest]
          simp
        · rw [if_neg hrest, if_neg (by simp)]
      | none =>
        have hst : fetchStep handler processed st v =
            ⟨st.entries, st.saves, st.calls ++ [v]⟩ := by
          simp [fetchStep, hv, hd]
        rw [hst, successRows_cons, hd]
        exact ih _

theorem fetch_run_entries (handler : Nat → Option Nat) (rawIds : List Nat)
    (maxVideos : Option Int) (file : DiskFile) :
    (fetch_transcripts_run handler rawIds maxVideos file).entries =
      successRows handler
        ((limitVideos maxVideos (uniqueFirst rawIds)).filter
          (notIn (load_checkpoint file))) :=
  (foldl_fetchStep_acc handler (load_checkpoint file)
    (limitVideos maxVideos (uniqueFirst rawIds)) ⟨[], [], []⟩).1

theorem fetch_run_calls (handler : Nat → Option Nat) (rawIds : List Nat)
    (maxVideos : Option Int) (file : DiskFile) :
    (fetch_transcripts_run handler rawIds maxVideos file).calls =
      (limitVideos maxVideos (uniqueFirst rawIds)).filter
        (notIn (load_checkpoint file)) :=
  (foldl_fetchStep_acc handler (load_checkpoint file)
    (limitVideos maxVideos (uniqueFirst rawIds)) ⟨[], [], []⟩).2

theorem fetch_run_file (handler : Nat → Option Nat) (rawIds : List Nat)
    (maxVideos : Option Int) (file : DiskFile) :
    (fetch_transcripts_run handler rawIds maxVideos file).file =
      if successRows handler
          ((limitVideos maxVideos (uniqueFirst rawIds)).filter
            (notIn (load_checkpoint file))) = []
      then file
      else .table true (successRows handler
        ((limitVideos maxVideos (uniqueFirst rawIds)).filter
          (notIn (load_checkpoint file)))) := by
  have hl := foldl_fetchStep_last_save handler (load_checkpoint file)
    (limitVideos maxVideos (uniqueFirst rawIds)) ⟨[], [], []⟩
  have he := fetch_run_entries handler rawIds maxVideos file
  have he' : (List.foldl (fetchStep handler (load_checkpoint file)) ⟨[], [], []⟩
      (limitVideos maxVideos (uniqueFirst rawIds))).entries =
      successRows handler ((limitVideos maxVideos (uniqueFirst rawIds)).filter
        (notIn (load_checkpoint file))) := he
  by_cases hs : successRows handler
      ((limitVideos maxVideos (uniqueFirst rawIds)).filter
        (notIn (load_checkpoint file))) = []
  · rw [if_pos hs]
    rw [if_pos hs] at hl
    show fileAfter file (fetchRunOn handler (load_checkpoint file)
      (limitVideos maxVideos (uniqueFirst rawIds))).saves = file
    rw [fetchRunOn, fileAfter, hl]
    rfl
  · rw [if_neg hs]
    rw [if_neg hs] at hl
    show fileAfter file (fetchRunOn handler (load_checkpoint file)
      (limitVideos maxVideos (uniqueFirst rawIds))).saves = _
    rw [fetchRunOn, fileAfter, hl, he']

end FetchTranscripts

/-! ## infer_demographics.py: analyze_demographics

`analyze_demographics` (lines 172-268): optionally truncate the profiles
with `head(max_users)` (only when `max_users` is truthy, i.e. not `None`
and nonzero), read the checkpoint, filter out already-processed channel
IDs (order preserved), and return early — touching nothing — when nothing
is left.  Otherwise load the existing rows back (only when the processed
set is nonempty), then for each remaining profile, in order, call the
OpenAI handler; on success append the result row; after every attempted
item whose 1-based index `idx` satisfies `idx % CHECKPOINT_INTERVAL == 0
or idx == total`, rewrite the whole output file with the accumulated rows.
`fetch_user_profiles.py` lines 381-477 contain a textually identical copy
of this function. -/

namespace InferDemographics

/-- `load_checkpoint` from infer_demographics.py (lines 70-90): missing
file or any exception while reading (including the `KeyError` when the
`channel_id` column is absent) give the empty set. -/
def load_checkpoint : DiskFile → List Nat
  | .missing => []
  | .unreadable => []
  | .table hasKey rows => if hasKey then rows.map Prod.fst else []

/-- `CHECKPOINT_INTERVAL` (line 32). -/
def CHECKPOINT_INTERVAL : Nat := 50

/-- `pandas.DataFrame.head(n)`: first `n` rows when `n ≥ 0`, all but the
last `-n` rows when `n < 0`. -/
def headPd (n : Int) (l : List Nat) : List Nat :=
  if 0 ≤ n then l.take n.toNat else l.take (l.length - (-n).toNat)

/-- `if max_users: profiles_df = profiles_df.head(max_users)` (lines
194-197): `None` and `0` are falsy and leave the list unlimited. -/
def limitUsers (maxUsers : Option Int) (l : List Nat) : List Nat :=
  match maxUsers with
  | none => l
  | some n => if n = 0 then l else headPd n l

/-- The per-user loop (lines 228-266): `idx` counts attempted users from 1;
on handler success the row is appended to the accumulated results; a flush
snapshot `(idx, results-so-far)` is recorded when
`idx % K == 0 or idx == total`.  Returns the final accumulated results and
the flush trace in order. -/
def analyzeLoop (handler : Nat → Option Nat) (K total : Nat) :
    Nat → List (Nat × Nat) → List Nat →
      List (Nat × Nat) × List (Nat × List (Nat × Nat))
  | _, acc, [] => (acc, [])
  | idx, acc, v :: rest =>
    let acc' := match handler v with
      | some d => acc ++ [(v, d)]
      | none => acc
    let out := analyzeLoop handler K total (idx + 1) acc' rest
    if idx % K = 0 ∨ idx = total then (out.1, (idx, acc') :: out.2) else out

/-- Result of one run of `analyze_demographics`: final accumulated results,
flush trace, the channel IDs passed to the handler (in order), and the
resulting file. -/
structure AnalyzeOut where
  results : List (Nat × Nat)
  flushes : List (Nat × List (Nat × Nat))
  calls : List Nat
  file : DiskFile
deriving DecidableEq

/-- `analyze_demographics(profiles_file, output_file, max_users)` as a
function of the handler (OpenAI inference), the `channel_id` column of the
profiles CSV, the cap, and the output file found on disk; `K` stands for
`CHECKPOINT_INTERVAL` (50 in the source).  Every row not filtered out by
the checkpoint is passed to the handler exactly once, in order, so
`calls` is the filtered list itself. -/
def analyze_demographics_run (handler : Nat → Option Nat) (K : Nat)
    (profiles : List Nat) (maxUsers : Option Int) (file : DiskFile) :
    AnalyzeOut :=
  let profs := limitUsers maxUsers profiles
  let processed := load_checkpoint file
  let toProc := profs.filter (notIn processed)
  if toProc = [] then ⟨[], [], [], file⟩
  else
    let init := if processed = [] then [] else fileRows file
    let out := analyzeLoop handler K toProc.length 1 init toProc
    ⟨out.1, out.2, toProc, fileAfter file (out.2.map Prod.snd)⟩

/-- State of the output file if the process is killed right after the
`stop`-th attempted item: the last flush at an index `≤ stop`, or the
original file when none happened yet. -/
def analyzeInterrupt (handler : Nat → Option Nat) (K : Nat)
    (profiles : List Nat) (maxUsers : Option Int) (stop : Nat)
    (file : DiskFile) : DiskFile :=
  let out := analyze_demographics_run handler K profiles maxUsers file
  fileAfter file ((out.flushes.filter (fun p => decide (p.1 ≤ stop))).map Prod.snd)

theorem analyzeLoop_cons (handler : Nat → Option Nat) (K total idx : Nat)
    (acc : List (Nat × Nat)) (v : Nat) (rest : List Nat) :
    analyzeLoop handler K total idx acc (v :: rest) =
      (let acc' := match handler v with
        | some d => acc ++ [(v, d)]
        | none => acc
       let out := analyzeLoop handler K total (idx + 1) acc' rest
       if idx % K = 0 ∨ idx = total then (out.1, (idx, acc') :: out.2) else out) :=
  rfl

theorem analyzeLoop_results (handler : Nat → Option Nat) (K total : Nat) :
    ∀ (l : List Nat) (idx : Nat) (acc : List (Nat × Nat)),
      (analyzeLoop handler K total idx acc l).1 = acc ++ successRows handler l := by
  intro l
  induction l with
  | nil => intro idx acc; simp [analyzeLoop, successRows]
  | cons v rest ih =>
    intro idx acc
    rw [analyzeLoop_cons, successRows_cons]
    cases hd : handler v with
    | some d =>
      simp only [hd]
      by_cases hc : idx % K = 0 ∨ idx = total
      · rw [if_pos hc]
        show (analyzeLoop handler K total (idx + 1) (acc ++ [(v, d)]) rest).1 = _
        rw [ih]
        simp
      · rw [if_neg hc, ih]
        simp
    | none =>
      simp only [hd]
      by_cases hc : idx % K = 0 ∨ idx = total
      · rw [if_pos hc]
        show (analyzeLoop handler K total (idx + 1) acc rest).1 = _
        rw [ih]
      · rw [if_neg hc, ih]

theorem analyzeLoop_flush_idx (handler : Nat → Option Nat) (K total : Nat) :
    ∀ (l : List Nat) (idx : Nat) (acc : List (Nat × Nat)),
      ((analyzeLoop handler K total idx acc l).2).map Prod.fst =
        (List.range' idx l.length).filter
          (fun i => decide (i % K = 0 ∨ i = total)) := by
  intro l
  induction l with
  | nil => intro idx acc; simp [analyzeLoop]
  | cons v rest ih =>
    intro idx acc
    rw [analyzeLoop_cons]
    have hr : List.range' idx (v :: rest).length = idx :: List.range' (idx + 1) rest.length := by
      rw [List.length_cons]
      exact List.range'_succ idx rest.length 1
    rw [hr]
    set acc' := (match handler v with
      | some d => acc ++ [(v, d)]
      | none => acc) with hacc'
    by_cases hc : idx % K = 0 ∨ idx = total
    · rw [if_pos hc, List.filter_cons_of_pos (by simpa using hc)]
      show ((idx, acc') :: (analyzeLoop handler K total (idx + 1) acc' rest).2).map Prod.fst = _
      rw [List.map_cons, ih]
    · rw [if_neg hc, List.filter_cons_of_neg (by simpa using hc)]
      exact ih (idx + 1) acc'

theorem analyzeLoop_flush_content (handler : Nat → Option Nat) (K total : Nat) :
    ∀ (l : List Nat) (idx : Nat) (acc : List (Nat × Nat)),
      ∀ p ∈ (analyzeLoop handler K total idx acc l).2,
        idx ≤ p.1 ∧ p.1 < idx + l.length ∧
        p.2 = acc ++ successRows handler (l.take (p.1 + 1 - idx)) := by
  intro l
  induction l with
  | nil => intro idx acc p hp; simp [analyzeLoop] at hp
  | cons v rest ih =>
    intro idx acc p hp
    rw [analyzeLoop_cons] at hp
    set acc' := (match handler v with
      | some d => acc ++ [(v, d)]
      | none => acc) with hacc'
    have hacc'eq : acc' = acc ++ successRows handler [v] := by
      rw [hacc', successRows_cons]
      cases hd : handler v <;> simp [successRows]
    have htail : ∀ q, q ∈ (analyzeLoop handler K total (idx + 1) acc' rest).2 →
        idx ≤ q.1 ∧ q.1 < idx + (v :: rest).length ∧
        q.2 = acc ++ successRows handler ((v :: rest).take (q.1 + 1 - idx)) := by
      intro q hq
      obtain ⟨hq1, hq2, hq3⟩ := ih (idx + 1) acc' q hq
      refine ⟨by omega, by simp only [List.length_cons]; omega, ?_⟩
      have harith : q.1 + 1 - idx = (q.1 - idx) + 1 := by omega
      have harith2 : q.1 + 1 - (idx + 1) = q.1 - idx := by omega
      rw [harith, List.take_succ_cons, successRows_cons]
      rw [harith2] at hq3
      rw [hq3, hacc'eq, successRows_cons]
      cases hd : handler v <;> simp [successRows]
    by_cases hc : idx % K = 0 ∨ idx = total
    · rw [if_pos hc] at hp
      rcases List.mem_cons.mp hp with hp | hp
      · subst hp
        refine ⟨Nat.le_refl idx, by simp, ?_⟩
        have : idx + 1 - idx = 1 := by omega
        rw [this, hacc'eq]
        rfl
      · exact htail p hp
    · rw [if_neg hc] at hp
      exact htail p hp

theorem analyzeLoop_last_flush (handler : Nat → Option Nat) (K : Nat) :
    ∀ (l : List Nat) (idx : Nat) (acc : List (Nat × Nat)) (total : Nat),
      l ≠ [] → total = idx + l.length - 1 →
      (analyzeLoop handler K total idx acc l).2.getLast? =
        some (total, acc ++ successRows handler l) := by
  intro l
  induction l with
  | nil => intro idx acc total h; exact absurd rfl h
  | cons v rest ih =>
    intro idx acc total _ htotal
    rw [analyzeLoop_cons]
    set acc' := (match handler v with
      | some d => acc ++ [(v, d)]
      | none => acc) with hacc'
    have hacc'eq : acc' = acc ++ successRows handler [v] := by
      rw [hacc', successRows_cons]
      cases hd : handler v <;> simp [successRows]
    cases hrest : rest with
    | nil =>
      subst hrest
      have htot : total = idx := by simpa using htotal
      have hc : idx % K = 0 ∨ idx = total := Or.inr htot.symm
      rw [if_pos hc]
      show ((idx, acc') :: (analyzeLoop handler K total (idx + 1) acc' []).2).getLast? = _
      have : (analyzeLoop handler K total (idx + 1) acc' []).2 = [] := rfl
      rw [this]
      have hsucc : acc ++ successRows handler [v] = acc' := hacc'eq.symm
      rw [← htot, ← hsucc]
      rfl
    | cons w ws =>
      have hne : rest ≠ [] := by rw [hrest]; exact List.cons_ne_nil w ws
      rw [← hrest]
      have htotal' : total = (idx + 1) + rest.length - 1 := by
        rw [htotal, hrest]
        simp only [List.length_cons]
        omega
      have hlast := ih (idx + 1) acc' total hne htotal'
      have hval : acc' ++ successRows handler rest =
          acc ++ successRows handler (v :: rest) := by
        rw [hacc'eq, successRows_cons, successRows_cons]
        cases hd : handler v <;> simp [successRows]
      by_cases hc : idx % K = 0 ∨ idx = total
      · rw [if_pos hc]
        show ((idx, acc') :: (analyzeLoop handler K total (idx + 1) acc' rest).2).getLast? = _
        obtain ⟨c, cs, hcs⟩ : ∃ c cs,
            (analyzeLoop handler K total (idx + 1) acc' rest).2 = c :: cs := by
          cases hx : (analyzeLoop handler K total (idx + 1) acc' rest).2 with
          | nil => rw [hx] at hlast; simp at hlast
          | cons c cs => exact ⟨c, cs, rfl⟩
        rw [hcs, List.getLast?_cons_cons, ← hcs, hlast, hval]
      · rw [if_neg hc]
        show (analyzeLoop handler K total (idx + 1) acc' rest).2.getLast? = _
        rw [hlast, hval]

/-- `profiles_to_process`: the limited profile list with checkpointed IDs
filtered out (lines 195-207). -/
def toProcOf (profiles : List Nat) (maxUsers : Option Int) (file : DiskFile) :
    List Nat :=
  (limitUsers maxUsers profiles).filter (notIn (load_checkpoint file))

/-- `all_results` before the loop: the existing rows, loaded back only when
the processed set is nonempty (lines 221-225). -/
def initRows (file : DiskFile) : List (Nat × Nat) :=
  if load_checkpoint file = [] then [] else fileRows file

theorem analyze_run_eq (handler : Nat → Option Nat) (K : Nat)
    (profiles : List Nat) (maxUsers : Option Int) (file : DiskFile) :
    analyze_demographics_run handler K profiles maxUsers file =
      if toProcOf profiles maxUsers file = [] then ⟨[], [], [], file⟩
      else
        ⟨(analyzeLoop handler K (toProcOf profiles maxUsers file).length 1
            (initRows file) (toProcOf profiles maxUsers file)).1,
         (analyzeLoop handler K (toProcOf profiles maxUsers file).length 1
            (initRows file) (toProcOf profiles maxUsers file)).2,
         toProcOf profiles maxUsers file,
         fileAfter file
           (((analyzeLoop handler K (toProcOf profiles maxUsers file).length 1
             (initRows file) (toProcOf profiles maxUsers file)).2).map Prod.snd)⟩ :=
  rfl

theorem analyze_run_empty (handler : Nat → Option Nat) (K : Nat)
    (profiles : List Nat) (maxUsers : Option Int) (file : DiskFile)
    (h : toProcOf profiles maxUsers file = []) :
    analyze_demographics_run handler K profiles maxUsers file = ⟨[], [], [], file⟩ := by
  rw [analyze_run_eq, if_pos h]

theorem analyze_run_calls (handler : Nat → Option Nat) (K : Nat)
    (profiles : List Nat) (maxUsers : Option Int) (file : DiskFile)
    (h : toProcOf profiles maxUsers file ≠ []) :
    (analyze_demographics_run handler K profiles maxUsers file).calls =
      toProcOf profiles maxUsers file := by
  rw [analyze_run_eq, if_neg h]

theorem analyze_run_results (handler : Nat → Option Nat) (K : Nat)
    (profiles : List Nat) (maxUsers : Option Int) (file : DiskFile)
    (h : toProcOf profiles maxUsers file ≠ []) :
    (analyze_demographics_run handler K profiles maxUsers file).results =
      initRows file ++ successRows handler (toProcOf profiles maxUsers file) := by
  rw [analyze_run_eq, if_neg h]
  exact analyzeLoop_results handler K _ _ 1 (initRows file)

theorem analyze_run_flushes (handler : Nat → Option Nat) (K : Nat)
    (profiles : List Nat) (maxUsers : Option Int) (file : DiskFile)
    (h : toProcOf profiles maxUsers file ≠ []) :
    (analyze_demographics_run handler K profiles maxUsers file).flushes =
      (analyzeLoop handler K (toProcOf profiles maxUsers file).length 1
        (initRows file) (toProcOf profiles maxUsers file)).2 := by
  rw [analyze_run_eq, if_neg h]

theorem analyze_run_file (handler : Nat → Option Nat) (K : Nat)
    (profiles : List Nat) (maxUsers : Option Int) (file : DiskFile)
    (h : toProcOf profiles maxUsers file ≠ []) :
    (analyze_demographics_run handler K profiles maxUsers file).file =
      .table true (initRows file ++
        successRows handler (toProcOf profiles maxUsers file)) := by
  rw [analyze_run_eq, if_neg h]
  show fileAfter file _ = _
  have hlast := analyzeLoop_last_flush handler K (toProcOf profiles maxUsers file)
    1 (initRows file) (toProcOf profiles maxUsers file).length h
    (by omega)
  rw [fileAfter, List.getLast?_map, hlast]
  rfl

theorem analyze_run_flush_idx (handler : Nat → Option Nat) (K : Nat)
    (profiles : List Nat) (maxUsers : Option Int) (file : DiskFile)
    (h : toProcOf profiles maxUsers file ≠ []) :
    ((analyze_demographics_run handler K profiles maxUsers file).flushes).map
        Prod.fst =
      (List.range' 1 (toProcOf profiles maxUsers file).length).filter
        (fun i => decide (i % K = 0 ∨ i = (toProcOf profiles maxUsers file).length)) := by
  rw [analyze_run_flushes handler K profiles maxUsers file h]
  exact analyzeLoop_flush_idx handler K _ _ 1 (initRows file)

theorem analyze_run_flush_content (handler : Nat → Option Nat) (K : Nat)
    (profiles : List Nat) (maxUsers : Option Int) (file : DiskFile)
    (h : toProcOf profiles maxUsers file ≠ []) :
    ∀ p ∈ (analyze_demographics_run handler K profiles maxUsers file).flushes,
      1 ≤ p.1 ∧ p.1 ≤ (toProcOf profiles maxUsers file).length ∧
      p.2 = initRows file ++
        successRows handler ((toProcOf profiles maxUsers file).take p.1) := by
  rw [analyze_run_flushes handler K profiles maxUsers file h]
  intro p hp
  obtain ⟨h1, h2, h3⟩ := analyzeLoop_flush_content handler K
    (toProcOf profiles maxUsers file).length (toProcOf profiles maxUsers file)
    1 (initRows file) p hp
  refine ⟨h1, by omega, ?_⟩
  have : p.1 + 1 - 1 = p.1 := by omega
  rw [this] at h3
  exact h3

theorem analyze_run_calls_eq (handler : Nat → Option Nat) (K : Nat)
    (profiles : List Nat) (maxUsers : Option Int) (file : DiskFile) :
    (analyze_demographics_run handler K profiles maxUsers file).calls =
      toProcOf profiles maxUsers file := by
  by_cases h : toProcOf profiles maxUsers file = []
  · rw [analyze_run_empty handler K profiles maxUsers file h, h]
  · exact analyze_run_calls handler K profiles maxUsers file h

theorem load_checkpoint_eq_fileKeys :
    ∀ f : DiskFile, load_checkpoint f = fileKeys f := by
  intro f
  cases f with
  | missing => rfl
  | unreadable => rfl
  | table hasKey rows => cases hasKey <;> simp [load_checkpoint, fileKeys]

theorem initRows_cases (f : DiskFile) :
    initRows f = [] ∨
      (initRows f = fileRows f ∧ (initRows f).map Prod.fst = fileKeys f ∧
        fileKeys f ≠ []) := by
  unfold initRows
  rw [load_checkpoint_eq_fileKeys]
  by_cases h : fileKeys f = []
  · left
    rw [if_pos h]
  · right
    rw [if_neg h]
    refine ⟨rfl, ?_, h⟩
    cases f with
    | missing => exact absurd rfl h
    | unreadable => exact absurd rfl h
    | table hasKey rows =>
      cases hasKey with
      | false => exact absurd rfl h
      | true => rfl

theorem initRows_keys_sub (f : DiskFile) :
    ((initRows f).map Prod.fst) ⊆ fileKeys f := by
  rcases initRows_cases f with h | ⟨_, h2, _⟩
  · rw [h]
    simp
  · rw [h2]
    exact fun x hx => hx

theorem fileKeys_sub_initRows (f : DiskFile) :
    fileKeys f ⊆ (initRows f).map Prod.fst := by
  rcases initRows_cases f with h | ⟨_, h2, _⟩
  · unfold initRows at h
    rw [load_checkpoint_eq_fileKeys] at h
    by_cases hk : fileKeys f = []
    · rw [hk]
      simp
    · rw [if_neg hk] at h
      cases f with
      | missing => exact absurd rfl hk
      | unreadable => exact absurd rfl hk
      | table hasKey rows =>
        cases hasKey with
        | false => exact absurd rfl hk
        | true =>
          exfalso
          apply hk
          show rows.map Prod.fst = []
          have : fileRows (DiskFile.table true rows) = rows := rfl
          rw [this] at h
          rw [h]
          rfl
  · rw [h2]
    exact fun x hx => hx

end InferDemographics

/-- Membership in the success rows: exactly the attempted IDs on which the
handler succeeded, paired with the produced payload. -/
theorem mem_successRows {handler : Nat → Option Nat} {l : List Nat}
    {i d : Nat} : (i, d) ∈ successRows handler l ↔ i ∈ l ∧ handler i = some d := by
  rw [successRows, List.mem_filterMap]
  constructor
  · rintro ⟨v, hv, hveq⟩
    cases hd : handler v with
    | none => rw [hd] at hveq; simp at hveq
    | some e =>
      rw [hd] at hveq
      simp only [Option.map_some', Option.some.injEq, Prod.mk.injEq] at hveq
      obtain ⟨h1, h2⟩ := hveq
      subst h1
      subst h2
      exact ⟨hv, hd⟩
  · rintro ⟨hi, hd⟩
    exact ⟨i, hi, by rw [hd]; rfl⟩

theorem not_mem_successRows_keys {handler : Nat → Option Nat} {l : List Nat}
    {b : Nat} (hb : handler b = none) :
    b ∉ (successRows handler l).map Prod.fst := by
  intro hmem
  rw [List.mem_map] at hmem
  obtain ⟨p, hp, hpb⟩ := hmem
  obtain ⟨_, hd⟩ := mem_successRows.mp (show (p.1, p.2) ∈ _ from hp)
  rw [hpb] at hd
  rw [hb] at hd
  exact Option.noConfusion hd

/-- `load_checkpoint` of fetch_transcripts.py also computes exactly the key
column of the file, when present. -/
theorem ft_load_eq_fileKeys :
    ∀ f : DiskFile, FetchTranscripts.load_checkpoint f = fileKeys f := by
  intro f
  cases f with
  | missing => rfl
  | unreadable => rfl
  | table hasKey rows =>
    cases hasKey <;> simp [FetchTranscripts.load_checkpoint, fileKeys]

/-- Handler used in concrete scenarios: every item succeeds, the payload is
derived from the ID. -/
def scenarioHandler : Nat → Option Nat := fun v => some (v + 10)

/-- Handler used in failure scenarios: IDs 1 and 2 succeed, every other
item raises (is `none`). -/
def failHandler : Nat → Option Nat :=
  fun v => if v = 1 ∨ v = 2 then some (v + 10) else none

/-- General resume correctness of the analyze_demographics processor: for a
checkpoint holding handler-consistent rows for a subset of the items,
resuming yields the same result set, keyed by ID, as a single pass, and the
handler is invoked exactly on the non-checkpointed items in input order. -/
theorem analyze_resume_correct (handler : Nat → Option Nat)
    (items : List Nat) (doneRows : List (Nat × Nat))
    (hcons : ∀ p ∈ doneRows, p.1 ∈ items ∧ handler p.1 = some p.2) :
    (∀ i d,
      (i, d) ∈ fileRows (InferDemographics.analyze_demographics_run handler
        InferDemographics.CHECKPOINT_INTERVAL items none
        (.table true doneRows)).file ↔
      (i, d) ∈ fileRows (InferDemographics.analyze_demographics_run handler
        InferDemographics.CHECKPOINT_INTERVAL items none .missing).file) ∧
    (InferDemographics.analyze_demographics_run handler
      InferDemographics.CHECKPOINT_INTERVAL items none
      (.table true doneRows)).calls =
      items.filter (notIn (doneRows.map Prod.fst)) := by
  have hcallsToProc : InferDemographics.toProcOf items none
      (DiskFile.table true doneRows) =
      items.filter (notIn (doneRows.map Prod.fst)) := rfl
  have honepassToProc : InferDemographics.toProcOf items none DiskFile.missing =
      items.filter (notIn ([] : List Nat)) := rfl
  have hfilplain : items.filter (notIn ([] : List Nat)) = items :=
    List.filter_eq_self.mpr (fun a _ => by simp [notIn])
  constructor
  · intro i d
    by_cases hitems : items = []
    · subst hitems
      have hdone : doneRows = [] := by
        cases doneRows with
        | nil => rfl
        | cons p ps => exact absurd (hcons p (by simp)).1 (List.not_mem_nil p.1)
      subst hdone
      rw [InferDemographics.analyze_run_empty _ _ _ _ _ (by rw [hcallsToProc]; rfl),
        InferDemographics.analyze_run_empty _ _ _ _ _
          (by rw [honepassToProc, hfilplain])]
      simp [fileRows]
    · have hone : InferDemographics.toProcOf items none DiskFile.missing ≠ [] := by
        rw [honepassToProc, hfilplain]
        exact hitems
      have honefile := InferDemographics.analyze_run_file handler
        InferDemographics.CHECKPOINT_INTERVAL items none DiskFile.missing hone
      have honeInit : InferDemographics.initRows DiskFile.missing = [] := rfl
      rw [honefile, honeInit, honepassToProc, hfilplain]
      have honeRows : fileRows (DiskFile.table true
          (([] : List (Nat × Nat)) ++ successRows handler items)) =
          successRows handler items := by simp [fileRows]
      rw [honeRows]
      by_cases hres : InferDemographics.toProcOf items none
          (DiskFile.table true doneRows) = []
      · rw [InferDemographics.analyze_run_empty _ _ _ _ _ hres]
        show (i, d) ∈ fileRows (DiskFile.table true doneRows) ↔ _
        have : fileRows (DiskFile.table true doneRows) = doneRows := rfl
        rw [this]
        constructor
        · intro hmem
          obtain ⟨h1, h2⟩ := hcons (i, d) hmem
          exact mem_successRows.mpr ⟨h1, h2⟩
        · intro hmem
          obtain ⟨h1, h2⟩ := mem_successRows.mp hmem
          have hall : ∀ v ∈ items, v ∈ doneRows.map Prod.fst := by
            intro v hv
            rw [hcallsToProc] at hres
            have := List.filter_eq_nil_iff.mp hres v hv
            simp [notIn] at this
            obtain ⟨x, hx⟩ := this
            exact List.mem_map.mpr ⟨(v, x), hx, rfl⟩
          obtain ⟨p, hp, hpfst⟩ := List.mem_map.mp (hall i h1)
          obtain ⟨_, hphandler⟩ := hcons p hp
          rw [hpfst] at hphandler
          rw [h2] at hphandler
          have : p = (i, d) := by
            cases p with
            | mk a b =>
              simp at hpfst
              simp at hphandler
              simp [hpfst, hphandler]
          rw [← this]
          exact hp
      · have hresfile := InferDemographics.analyze_run_file handler
          InferDemographics.CHECKPOINT_INTERVAL items none
          (DiskFile.table true doneRows) hres
        rw [hresfile]
        show (i, d) ∈ fileRows (DiskFile.table true _) ↔ _
        have hfr : ∀ R : List (Nat × Nat), fileRows (DiskFile.table true R) = R :=
          fun R => rfl
        rw [hfr]
        by_cases hd0 : doneRows = []
        · subst hd0
          have : InferDemographics.initRows (DiskFile.table true []) = [] := rfl
          rw [this]
          have : InferDemographics.toProcOf items none (DiskFile.table true []) =
              items := by rw [hcallsToProc]; simpa using hfilplain
          rw [this]
          simp
        · have hdne : doneRows.map Prod.fst ≠ [] := by
            intro h
            exact hd0 (List.map_eq_nil_iff.mp h)
          have hinit : InferDemographics.initRows (DiskFile.table true doneRows) =
              doneRows := by
            unfold InferDemographics.initRows
            rw [InferDemographics.load_checkpoint_eq_fileKeys]
            have : fileKeys (DiskFile.table true doneRows) =
                doneRows.map Prod.fst := rfl
            rw [this, if_neg hdne]
            rfl
          rw [hinit, hcallsToProc, List.mem_append]
          constructor
          · rintro (hmem | hmem)
            · obtain ⟨h1, h2⟩ := hcons (i, d) hmem
              exact mem_successRows.mpr ⟨h1, h2⟩
            · obtain ⟨h1, h2⟩ := mem_successRows.mp hmem
              exact mem_successRows.mpr ⟨(List.mem_filter.mp h1).1, h2⟩
          · intro hmem
            obtain ⟨h1, h2⟩ := mem_successRows.mp hmem
            by_cases hin : i ∈ doneRows.map Prod.fst
            · left
              obtain ⟨p, hp, hpfst⟩ := List.mem_map.mp hin
              obtain ⟨_, hphandler⟩ := hcons p hp
              rw [hpfst] at hphandler
              rw [h2] at hphandler
              have : p = (i, d) := by
                cases p with
                | mk a b =>
                  simp at hpfst
                  simp at hphandler
                  simp [hpfst, hphandler]
              rw [← this]
              exact hp
            · right
              refine mem_successRows.mpr ⟨?_, h2⟩
              exact List.mem_filter.mpr ⟨h1, by simp [notIn, hin]⟩
  · rw [InferDemographics.analyze_run_calls_eq, hcallsToProc]

/-- C1: resume correctness.  The analyze_demographics processor satisfies
it: merging the checkpoint with the results of the remaining items gives
the same result set, keyed by ID, as one pass, the handler is invoked only
on the remaining items in order, and on the concrete scenario
(items `[A,B,C]`, checkpoint `{A}`) the final file is exactly `{A,B,C}`
with A's row unchanged.  The fetch_transcripts processor violates the
claim: on the same scenario it calls the handler only for B and C, but its
final output file holds only B's and C's rows — A's checkpointed row is
dropped, because `all_transcript_entries` starts empty and
`save_checkpoint` overwrites the file with it. -/
theorem claim_C1 :
    (∀ (handler : Nat → Option Nat) (items : List Nat)
        (doneRows : List (Nat × Nat)),
      (∀ p ∈ doneRows, p.1 ∈ items ∧ handler p.1 = some p.2) →
      ((∀ i d,
        (i, d) ∈ fileRows (InferDemographics.analyze_demographics_run handler
          InferDemographics.CHECKPOINT_INTERVAL items none
          (.table true doneRows)).file ↔
        (i, d) ∈ fileRows (InferDemographics.analyze_demographics_run handler
          InferDemographics.CHECKPOINT_INTERVAL items none .missing).file) ∧
      (InferDemographics.analyze_demographics_run handler
        InferDemographics.CHECKPOINT_INTERVAL items none
        (.table true doneRows)).calls =
        items.filter (notIn (doneRows.map Prod.fst)))) ∧
    (InferDemographics.analyze_demographics_run scenarioHandler
      InferDemographics.CHECKPOINT_INTERVAL [0, 1, 2] none
      (.table true [(0, 10)])).calls = [1, 2] ∧
    (InferDemographics.analyze_demographics_run scenarioHandler
      InferDemographics.CHECKPOINT_INTERVAL [0, 1, 2] none
      (.table true [(0, 10)])).file = .table true [(0, 10), (1, 11), (2, 12)] ∧
    (FetchTranscripts.fetch_transcripts_run scenarioHandler [0, 1, 2] none
      (.table true [(0, 10)])).calls = [1, 2] ∧
    (FetchTranscripts.fetch_transcripts_run scenarioHandler [0, 1, 2] none
      (.table true [(0, 10)])).file = .table true [(1, 11), (2, 12)] :=
  ⟨analyze_resume_correct, by decide, by decide, by decide, by decide⟩

/-- Witness for C1: the general resume-correctness statement applied at the
concrete scenario, all hypotheses discharged by evaluation. -/
theorem claim_C1_witness :
    ((0, 10) ∈ fileRows (InferDemographics.analyze_demographics_run
      scenarioHandler InferDemographics.CHECKPOINT_INTERVAL [0, 1, 2] none
      (.table true [(0, 10)])).file ↔
    (0, 10) ∈ fileRows (InferDemographics.analyze_demographics_run
      scenarioHandler InferDemographics.CHECKPOINT_INTERVAL [0, 1, 2] none
      .missing).file) ∧
    (InferDemographics.analyze_demographics_run scenarioHandler
      InferDemographics.CHECKPOINT_INTERVAL [0, 1, 2] none
      (.table true [(0, 10)])).calls =
      [0, 1, 2].filter (notIn ([(0, 10)].map Prod.fst)) :=
  ⟨((claim_C1.1 scenarioHandler [0, 1, 2] [(0, 10)] (by decide)).1 0 10),
   (claim_C1.1 scenarioHandler [0, 1, 2] [(0, 10)] (by decide)).2⟩

namespace FetchTranscripts

theorem foldl_all_skip (handler : Nat → Option Nat) (processed : List Nat) :
    ∀ (ids : List Nat) (st : FetchAcc), (∀ v ∈ ids, v ∈ processed) →
      ids.foldl (fetchStep handler processed) st = st := by
  intro ids
  induction ids with
  | nil => intro st _; rfl
  | cons v rest ih =>
    intro st hall
    rw [List.foldl_cons, fetchStep_skip handler processed st v (hall v (by simp))]
    exact ih st (fun w hw => hall w (by simp [hw]))

end FetchTranscripts

/-- C3: when every (deduplicated, capped) input ID is already present in
the checkpoint, a second run of either processor performs no handler call,
writes nothing, and leaves the output file exactly as it was — existing
rows and their order included. -/
theorem claim_C3 :
    (∀ (handler : Nat → Option Nat) (K : Nat) (profiles : List Nat)
        (maxUsers : Option Int) (file : DiskFile),
      (∀ v ∈ InferDemographics.limitUsers maxUsers profiles,
        v ∈ InferDemographics.load_checkpoint file) →
      InferDemographics.analyze_demographics_run handler K profiles maxUsers
        file = ⟨[], [], [], file⟩) ∧
    (∀ (handler : Nat → Option Nat) (rawIds : List Nat)
        (maxVideos : Option Int) (file : DiskFile),
      (∀ v ∈ FetchTranscripts.limitVideos maxVideos (uniqueFirst rawIds),
        v ∈ FetchTranscripts.load_checkpoint file) →
      FetchTranscripts.fetch_transcripts_run handler rawIds maxVideos file =
        ⟨[], [], [], file⟩) := by
  constructor
  · intro handler K profiles maxUsers file hall
    apply InferDemographics.analyze_run_empty
    unfold InferDemographics.toProcOf
    rw [List.filter_eq_nil_iff]
    intro v hv
    simp [notIn, hall v hv]
  · intro handler rawIds maxVideos file hall
    have hacc := FetchTranscripts.foldl_all_skip handler
      (FetchTranscripts.load_checkpoint file)
      (FetchTranscripts.limitVideos maxVideos (uniqueFirst rawIds))
      ⟨[], [], []⟩ hall
    show (⟨_, _, _, _⟩ : FetchTranscripts.FetchOut) = _
    have hrun : FetchTranscripts.fetchRunOn handler
        (FetchTranscripts.load_checkpoint file)
        (FetchTranscripts.limitVideos maxVideos (uniqueFirst rawIds)) =
        ⟨[], [], []⟩ := hacc
    simp only [FetchTranscripts.fetch_transcripts_run, hrun]
    rfl

/-- Witness for C3 at a concrete instance: two items, both checkpointed,
for each processor. -/
theorem claim_C3_witness :
    InferDemographics.analyze_demographics_run scenarioHandler 50 [0, 1] none
      (.table true [(0, 10), (1, 11)]) =
      ⟨[], [], [], .table true [(0, 10), (1, 11)]⟩ ∧
    FetchTranscripts.fetch_transcripts_run scenarioHandler [0, 1] none
      (.table true [(0, 10), (1, 11)]) =
      ⟨[], [], [], .table true [(0, 10), (1, 11)]⟩ :=
  ⟨claim_C3.1 scenarioHandler 50 [0, 1] none (.table true [(0, 10), (1, 11)])
    (by decide),
   claim_C3.2 scenarioHandler [0, 1] none (.table true [(0, 10), (1, 11)])
    (by decide)⟩

/-- C4: a failing item is caught at the per-item boundary: the loop still
attempts every non-checkpointed item in order (`calls` is the whole
filtered list), the failed ID is absent from the output file, and a second
run over the same input attempts it again. -/
theorem claim_C4 :
    (∀ (handler : Nat → Option Nat) (K : Nat) (profiles : List Nat)
        (file : DiskFile) (b : Nat),
      b ∈ InferDemographics.toProcOf profiles none file →
      handler b = none →
      (InferDemographics.analyze_demographics_run handler K profiles none
        file).calls = InferDemographics.toProcOf profiles none file ∧
      b ∉ fileKeys (InferDemographics.analyze_demographics_run handler K
        profiles none file).file ∧
      b ∈ (InferDemographics.analyze_demographics_run handler K profiles none
        (InferDemographics.analyze_demographics_run handler K profiles none
          file).file).calls) ∧
    (∀ (handler : Nat → Option Nat) (rawIds : List Nat) (file : DiskFile)
        (b : Nat),
      b ∈ (FetchTranscripts.limitVideos none (uniqueFirst rawIds)).filter
        (notIn (FetchTranscripts.load_checkpoint file)) →
      handler b = none →
      (FetchTranscripts.fetch_transcripts_run handler rawIds none file).calls =
        (FetchTranscripts.limitVideos none (uniqueFirst rawIds)).filter
          (notIn (FetchTranscripts.load_checkpoint file)) ∧
      b ∉ fileKeys (FetchTranscripts.fetch_transcripts_run handler rawIds none
        file).file ∧
      b ∈ (FetchTranscripts.fetch_transcripts_run handler rawIds none
        (FetchTranscripts.fetch_transcripts_run handler rawIds none
          file).file).calls) := by
  constructor
  · intro handler K profiles file b hb hfail
    have hne : InferDemographics.toProcOf profiles none file ≠ [] := by
      intro h
      rw [h] at hb
      exact List.not_mem_nil b hb
    have hbfilter := List.mem_filter.mp hb
    have hbnotdone : b ∉ fileKeys file := by
      have := hbfilter.2
      simp [notIn, InferDemographics.load_checkpoint_eq_fileKeys] at this
      exact this
    have hkeys : b ∉ fileKeys (InferDemographics.analyze_demographics_run
        handler K profiles none file).file := by
      rw [InferDemographics.analyze_run_file handler K profiles none file hne]
      show b ∉ (InferDemographics.initRows file ++
        successRows handler (InferDemographics.toProcOf profiles none
          file)).map Prod.fst
      rw [List.map_append, List.mem_append]
      rintro (hmem | hmem)
      · exact hbnotdone (InferDemographics.initRows_keys_sub file hmem)
      · exact not_mem_successRows_keys hfail hmem
    refine ⟨InferDemographics.analyze_run_calls_eq handler K profiles none file,
      hkeys, ?_⟩
    rw [InferDemographics.analyze_run_calls_eq]
    unfold InferDemographics.toProcOf
    apply List.mem_filter.mpr
    refine ⟨hbfilter.1, ?_⟩
    simp [notIn, InferDemographics.load_checkpoint_eq_fileKeys]
    exact hkeys
  · intro handler rawIds file b hb hfail
    have hbfilter := List.mem_filter.mp hb
    have hbnotdone : b ∉ fileKeys file := by
      have := hbfilter.2
      simp [notIn, ft_load_eq_fileKeys] at this
      exact this
    have hkeys : b ∉ fileKeys (FetchTranscripts.fetch_transcripts_run handler
        rawIds none file).file := by
      rw [FetchTranscripts.fetch_run_file handler rawIds none file]
      by_cases hs : successRows handler
          ((FetchTranscripts.limitVideos none (uniqueFirst rawIds)).filter
            (notIn (FetchTranscripts.load_checkpoint file))) = []
      · rw [if_pos hs]
        exact hbnotdone
      · rw [if_neg hs]
        show b ∉ (successRows handler _).map Prod.fst
        exact not_mem_successRows_keys hfail
    refine ⟨FetchTranscripts.fetch_run_calls handler rawIds none file, hkeys, ?_⟩
    rw [FetchTranscripts.fetch_run_calls]
    apply List.mem_filter.mpr
    refine ⟨hbfilter.1, ?_⟩
    simp [notIn, ft_load_eq_fileKeys]
    exact hkeys

/-- Witness for C4: concrete failing item `5` among `[5, 1]`; item 1 still
succeeds and 5 is attempted again by the second run, in both processors. -/
theorem claim_C4_witness :
    ((InferDemographics.analyze_demographics_run failHandler 50 [5, 1] none
        .missing).calls = InferDemographics.toProcOf [5, 1] none .missing ∧
      5 ∉ fileKeys (InferDemographics.analyze_demographics_run failHandler 50
        [5, 1] none .missing).file ∧
      5 ∈ (InferDemographics.analyze_demographics_run failHandler 50 [5, 1] none
        (InferDemographics.analyze_demographics_run failHandler 50 [5, 1] none
          .missing).file).calls) ∧
    ((FetchTranscripts.fetch_transcripts_run failHandler [5, 1] none
        .missing).calls = (FetchTranscripts.limitVideos none
          (uniqueFirst [5, 1])).filter
          (notIn (FetchTranscripts.load_checkpoint .missing)) ∧
      5 ∉ fileKeys (FetchTranscripts.fetch_transcripts_run failHandler [5, 1]
        none .missing).file ∧
      5 ∈ (FetchTranscripts.fetch_transcripts_run failHandler [5, 1] none
        (FetchTranscripts.fetch_transcripts_run failHandler [5, 1] none
          .missing).file).calls) :=
  ⟨claim_C4.1 failHandler 50 [5, 1] .missing 5 (by decide) (by decide),
   claim_C4.2 failHandler [5, 1] .missing 5 (by decide) (by decide)⟩

/-- C2, refutation of the claim as stated: with `flush_every = 2` and items
`[0, 1, 2, 3]` of which 0 and 3 fail and 1 and 2 succeed, the second
successful item is the third attempted one, yet the flush trace is
`[2, 4]`: no flush occurs right after the second success (attempt 3), and
the flush at attempt 2 happens after only one success.  The loop counts
attempted items (`idx`), not successful ones. -/
theorem claim_C2_counterexample :
    (InferDemographics.analyze_demographics_run failHandler 2 [0, 1, 2, 3] none
      .missing).flushes.map Prod.fst = [2, 4] ∧
    (successRows failHandler ([0, 1, 2, 3].take 3)).length = 2 ∧
    failHandler 2 = some 12 ∧
    (3 : Nat) ∉ (InferDemographics.analyze_demographics_run failHandler 2
      [0, 1, 2, 3] none .missing).flushes.map Prod.fst := by
  refine ⟨by decide, by decide, by decide, by decide⟩

/-- C2, amended: a flush occurs exactly after every `flush_every`
*attempted* items and after the final item, and each flush writes the
previously-checkpointed rows followed by every row produced so far in the
run; the concrete scenario (flush_every=2, `[A,B,C]` all succeeding) holds
as stated, and a run restarted after the first flush processes only C. -/
theorem claim_C2 :
    (∀ (handler : Nat → Option Nat) (K : Nat) (profiles : List Nat)
        (maxUsers : Option Int) (file : DiskFile),
      0 < K →
      InferDemographics.toProcOf profiles maxUsers file ≠ [] →
      ((InferDemographics.analyze_demographics_run handler K profiles maxUsers
          file).flushes.map Prod.fst =
        (List.range' 1
          (InferDemographics.toProcOf profiles maxUsers file).length).filter
          (fun i => decide (i % K = 0 ∨
            i = (InferDemographics.toProcOf profiles maxUsers file).length)) ∧
       ∀ p ∈ (InferDemographics.analyze_demographics_run handler K profiles
          maxUsers file).flushes,
         p.2 = InferDemographics.initRows file ++
           successRows handler
             ((InferDemographics.toProcOf profiles maxUsers file).take p.1))) ∧
    (InferDemographics.analyze_demographics_run scenarioHandler 2 [0, 1, 2] none
      .missing).flushes =
      [(2, [(0, 10), (1, 11)]), (3, [(0, 10), (1, 11), (2, 12)])] ∧
    InferDemographics.analyzeInterrupt scenarioHandler 2 [0, 1, 2] none 2
      .missing = .table true [(0, 10), (1, 11)] ∧
    (InferDemographics.analyze_demographics_run scenarioHandler 2 [0, 1, 2] none
      (.table true [(0, 10), (1, 11)])).calls = [2] := by
  refine ⟨?_, by decide, by decide, by decide⟩
  intro handler K profiles maxUsers file _ hne
  exact ⟨InferDemographics.analyze_run_flush_idx handler K profiles maxUsers
      file hne,
    fun p hp => (InferDemographics.analyze_run_flush_content handler K profiles
      maxUsers file hne p hp).2.2⟩

/-- Witness for C2: the amended flush characterization applied at
flush_every = 2, items `[0, 1, 2]`, no checkpoint. -/
theorem claim_C2_witness :
    (InferDemographics.analyze_demographics_run scenarioHandler 2 [0, 1, 2] none
      .missing).flushes.map Prod.fst =
      (List.range' 1
        (InferDemographics.toProcOf [0, 1, 2] none .missing).length).filter
        (fun i => decide (i % 2 = 0 ∨
          i = (InferDemographics.toProcOf [0, 1, 2] none .missing).length)) ∧
    ∀ p ∈ (InferDemographics.analyze_demographics_run scenarioHandler 2
        [0, 1, 2] none .missing).flushes,
      p.2 = InferDemographics.initRows .missing ++
        successRows scenarioHandler
          ((InferDemographics.toProcOf [0, 1, 2] none .missing).take p.1) :=
  claim_C2.1 scenarioHandler 2 [0, 1, 2] none .missing (by decide) (by decide)

theorem mem_of_getLast?_eq {α : Type} {l : List α} {a : α}
    (h : l.getLast? = some a) : a ∈ l := by
  rcases List.mem_getLast?_eq_getLast (show a ∈ l.getLast? by rw [h]; rfl)
    with ⟨hne, heq⟩
  rw [heq]
  exact List.getLast_mem hne

namespace FetchTranscripts

theorem fileAfter_fetchRunOn (handler : Nat → Option Nat)
    (processed : List Nat) (ids : List Nat) (file : DiskFile) :
    fileAfter file (fetchRunOn handler processed ids).saves =
      if successRows handler (ids.filter (notIn processed)) = [] then file
      else .table true (successRows handler (ids.filter (notIn processed))) := by
  have hl := foldl_fetchStep_last_save handler processed ids ⟨[], [], []⟩
  have he := (foldl_fetchStep_acc handler processed ids ⟨[], [], []⟩).1
  by_cases hs : successRows handler (ids.filter (notIn processed)) = []
  · rw [if_pos hs]
    rw [if_pos hs] at hl
    rw [fetchRunOn, fileAfter, hl]
    rfl
  · rw [if_neg hs]
    rw [if_neg hs] at hl
    have he' : (List.foldl (fetchStep handler processed) ⟨[], [], []⟩ ids).entries
        = [] ++ successRows handler (ids.filter (notIn processed)) := he
    rw [fetchRunOn, fileAfter, hl, he']
    rfl

theorem fetchInterrupt_eq (handler : Nat → Option Nat) (rawIds : List Nat)
    (maxVideos : Option Int) (stop : Nat) (file : DiskFile) :
    fetchInterrupt handler rawIds maxVideos stop file =
      if successRows handler
          (((limitVideos maxVideos (uniqueFirst rawIds)).take stop).filter
            (notIn (load_checkpoint file))) = []
      then file
      else .table true (successRows handler
        (((limitVideos maxVideos (uniqueFirst rawIds)).take stop).filter
          (notIn (load_checkpoint file)))) :=
  fileAfter_fetchRunOn handler (load_checkpoint file)
    ((limitVideos maxVideos (uniqueFirst rawIds)).take stop) file

theorem limitVideos_sublist (maxVideos : Option Int) (ids : List Nat) :
    (limitVideos maxVideos ids).Sublist ids := by
  cases maxVideos with
  | none => exact List.Sublist.refl ids
  | some n =>
    show (if 0 < n then ids.take n.toNat else ids).Sublist ids
    by_cases h : 0 < n
    · rw [if_pos h]
      exact List.take_sublist n.toNat ids
    · rw [if_neg h]

theorem fetchInterrupt_nodup (handler : Nat → Option Nat) (rawIds : List Nat)
    (maxVideos : Option Int) (stop : Nat) (file : DiskFile)
    (hfile : (fileKeys file).Nodup) :
    (fileKeys (fetchInterrupt handler rawIds maxVideos stop file)).Nodup := by
  rw [fetchInterrupt_eq]
  by_cases hs : successRows handler
      (((limitVideos maxVideos (uniqueFirst rawIds)).take stop).filter
        (notIn (load_checkpoint file))) = []
  · rw [if_pos hs]
    exact hfile
  · rw [if_neg hs]
    show ((successRows handler _).map Prod.fst).Nodup
    apply nodup_successRows_keys
    have h1 : ((limitVideos maxVideos (uniqueFirst rawIds)).take stop).Sublist
        (uniqueFirst rawIds) :=
      ((List.take_sublist stop _).trans (limitVideos_sublist maxVideos _))
    exact ((List.filter_sublist _).trans h1).nodup (nodup_uniqueFirst rawIds)

end FetchTranscripts

namespace InferDemographics

theorem analyzeInterrupt_cases (handler : Nat → Option Nat) (K : Nat)
    (profiles : List Nat) (maxUsers : Option Int) (stop : Nat)
    (file : DiskFile) :
    analyzeInterrupt handler K profiles maxUsers stop file = file ∨
    ∃ j, 1 ≤ j ∧ j ≤ (toProcOf profiles maxUsers file).length ∧
      analyzeInterrupt handler K profiles maxUsers stop file =
        .table true (initRows file ++
          successRows handler ((toProcOf profiles maxUsers file).take j)) := by
  by_cases hne : toProcOf profiles maxUsers file = []
  · left
    unfold analyzeInterrupt
    rw [analyze_run_empty handler K profiles maxUsers file hne]
    rfl
  · cases hlast : (((analyze_demographics_run handler K profiles maxUsers
        file).flushes.filter (fun p => decide (p.1 ≤ stop))).map
        Prod.snd).getLast? with
    | none =>
      left
      unfold analyzeInterrupt
      rw [fileAfter, hlast]
    | some rows =>
      right
      rw [List.getLast?_map] at hlast
      cases hl2 : ((analyze_demographics_run handler K profiles maxUsers
          file).flushes.filter (fun p => decide (p.1 ≤ stop))).getLast? with
      | none => rw [hl2] at hlast; simp at hlast
      | some p =>
        rw [hl2] at hlast
        simp only [Option.map_some', Option.some.injEq] at hlast
        have hpmem : p ∈ (analyze_demographics_run handler K profiles maxUsers
            file).flushes :=
          List.mem_of_mem_filter (mem_of_getLast?_eq hl2)
        obtain ⟨hb1, hb2, hb3⟩ := analyze_run_flush_content handler K profiles
          maxUsers file hne p hpmem
        refine ⟨p.1, hb1, hb2, ?_⟩
        unfold analyzeInterrupt
        rw [fileAfter, List.getLast?_map, hl2]
        show DiskFile.table true p.2 = _
        rw [hb3]

theorem analyzeInterrupt_nodup (handler : Nat → Option Nat) (K : Nat)
    (profiles : List Nat) (maxUsers : Option Int) (stop : Nat)
    (file : DiskFile) (hnodup : (limitUsers maxUsers profiles).Nodup)
    (hfile : (fileKeys file).Nodup) :
    (fileKeys (analyzeInterrupt handler K profiles maxUsers stop file)).Nodup := by
  rcases analyzeInterrupt_cases handler K profiles maxUsers stop file with
    h | ⟨j, _, _, h⟩
  · rw [h]
    exact hfile
  · rw [h]
    show ((initRows file ++
      successRows handler ((toProcOf profiles maxUsers file).take j)).map
        Prod.fst).Nodup
    rw [List.map_append]
    have hinitsub := initRows_keys_sub file
    have hinitnodup : ((initRows file).map Prod.fst).Nodup := by
      rcases initRows_cases file with hi | ⟨_, hi2, _⟩
      · rw [hi]
        exact List.nodup_nil
      · rw [hi2]
        exact hfile
    have htoproc : (toProcOf profiles maxUsers file).Nodup :=
      (List.filter_sublist _).nodup hnodup
    have hsuccnodup : ((successRows handler
        ((toProcOf profiles maxUsers file).take j)).map Prod.fst).Nodup :=
      nodup_successRows_keys ((List.take_sublist j _).nodup htoproc)
    refine hinitnodup.append hsuccnodup ?_
    intro x hx1 hx2
    have hxfile : x ∈ fileKeys file := hinitsub hx1
    have hxtake : x ∈ (toProcOf profiles maxUsers file).take j :=
      mem_fst_successRows hx2
    have hxtoproc : x ∈ toProcOf profiles maxUsers file :=
      (List.take_sublist j _).subset hxtake
    have := (List.mem_filter.mp hxtoproc).2
    simp [notIn, load_checkpoint_eq_fileKeys] at this
    exact this hxfile

theorem analyzeInterrupt_keys_mono (handler : Nat → Option Nat) (K : Nat)
    (profiles : List Nat) (maxUsers : Option Int) (stop : Nat)
    (file : DiskFile) :
    fileKeys file ⊆
      fileKeys (analyzeInterrupt handler K profiles maxUsers stop file) := by
  rcases analyzeInterrupt_cases handler K profiles maxUsers stop file with
    h | ⟨j, _, _, h⟩
  · rw [h]
    exact fun x hx => hx
  · rw [h]
    intro x hx
    show x ∈ (initRows file ++ successRows handler _).map Prod.fst
    rw [List.map_append, List.mem_append]
    exact Or.inl (fileKeys_sub_initRows file hx)

theorem analyze_no_reprocess (handler : Nat → Option Nat) (K : Nat)
    (profiles : List Nat) (maxUsers : Option Int) (file : DiskFile) (v : Nat)
    (hv : v ∈ load_checkpoint file) :
    v ∉ (analyze_demographics_run handler K profiles maxUsers file).calls := by
  rw [analyze_run_calls_eq]
  intro hmem
  have := (List.mem_filter.mp hmem).2
  simp [notIn] at this
  exact this hv

end InferDemographics

theorem fetch_no_reprocess (handler : Nat → Option Nat) (rawIds : List Nat)
    (maxVideos : Option Int) (file : DiskFile) (v : Nat)
    (hv : v ∈ FetchTranscripts.load_checkpoint file) :
    v ∉ (FetchTranscripts.fetch_transcripts_run handler rawIds maxVideos
      file).calls := by
  rw [FetchTranscripts.fetch_run_calls]
  intro hmem
  have := (List.mem_filter.mp hmem).2
  simp [notIn] at this
  exact this hv

/-- One interrupted-or-complete run of fetch_transcripts: its handler, raw
input IDs, cap, and the loop iteration after which the process stopped
(any number at least the item count means the run completed). -/
structure FetchRunSpec where
  handler : Nat → Option Nat
  rawIds : List Nat
  maxVideos : Option Int
  stop : Nat

/-- File left on disk by a sequence of interrupted/resumed
fetch_transcripts runs. -/
def fetchChain (runs : List FetchRunSpec) (f : DiskFile) : DiskFile :=
  runs.foldl (fun f r =>
    FetchTranscripts.fetchInterrupt r.handler r.rawIds r.maxVideos r.stop f) f

/-- One interrupted-or-complete run of analyze_demographics. -/
structure AnalyzeRunSpec where
  handler : Nat → Option Nat
  K : Nat
  profiles : List Nat
  maxUsers : Option Int
  stop : Nat

/-- File left on disk by a sequence of interrupted/resumed
analyze_demographics runs. -/
def analyzeChain (runs : List AnalyzeRunSpec) (f : DiskFile) : DiskFile :=
  runs.foldl (fun f r =>
    InferDemographics.analyzeInterrupt r.handler r.K r.profiles r.maxUsers
      r.stop f) f

theorem fetchChain_nodup :
    ∀ (runs : List FetchRunSpec) (f : DiskFile),
      (fileKeys f).Nodup → (fileKeys (fetchChain runs f)).Nodup := by
  intro runs
  induction runs with
  | nil => intro f h; exact h
  | cons r rest ih =>
    intro f h
    exact ih _ (FetchTranscripts.fetchInterrupt_nodup r.handler r.rawIds
      r.maxVideos r.stop f h)

theorem analyzeChain_nodup :
    ∀ (runs : List AnalyzeRunSpec) (f : DiskFile),
      (∀ r ∈ runs, (InferDemographics.limitUsers r.maxUsers r.profiles).Nodup) →
      (fileKeys f).Nodup → (fileKeys (analyzeChain runs f)).Nodup := by
  intro runs
  induction runs with
  | nil => intro f _ h; exact h
  | cons r rest ih =>
    intro f hall h
    exact ih _ (fun r' hr' => hall r' (by simp [hr']))
      (InferDemographics.analyzeInterrupt_nodup r.handler r.K r.profiles
        r.maxUsers r.stop f (hall r (by simp)) h)

theorem analyzeChain_keys_mono :
    ∀ (runs : List AnalyzeRunSpec) (f : DiskFile),
      fileKeys f ⊆ fileKeys (analyzeChain runs f) := by
  intro runs
  induction runs with
  | nil => intro f x hx; exact hx
  | cons r rest ih =>
    intro f x hx
    exact ih _ (InferDemographics.analyzeInterrupt_keys_mono r.handler r.K
      r.profiles r.maxUsers r.stop f hx)

/-- C5: uniqueness invariant.  Both processors keep the output key column
duplicate-free over any sequence of interrupted/resumed runs (for
analyze_demographics under the phase-1 guarantee that each run's item list
is duplicate-free), and neither ever hands a checkpointed ID to its handler
within the run that read that checkpoint.  For analyze_demographics the
checkpointed keys also survive every later interrupted run, so an ID is
never reprocessed in any subsequent resumed run.  fetch_transcripts
violates that second half: its flushes drop previously-checkpointed rows
(the C1 bug), so an ID checkpointed earlier can disappear from the file and
be fetched again — concretely, after run 1 over `[0]` and run 2 over `[1]`
the file holds only `1`, and a third run over `[0, 1]` calls the handler on
`0` again. -/
theorem claim_C5 :
    (∀ runs : List FetchRunSpec, (fileKeys (fetchChain runs .missing)).Nodup) ∧
    (∀ runs : List AnalyzeRunSpec,
      (∀ r ∈ runs, (InferDemographics.limitUsers r.maxUsers r.profiles).Nodup) →
      (fileKeys (analyzeChain runs .missing)).Nodup) ∧
    (∀ (handler : Nat → Option Nat) (K : Nat) (profiles : List Nat)
        (maxUsers : Option Int) (file : DiskFile) (v : Nat),
      v ∈ InferDemographics.load_checkpoint file →
      v ∉ (InferDemographics.analyze_demographics_run handler K profiles
        maxUsers file).calls) ∧
    (∀ (handler : Nat → Option Nat) (rawIds : List Nat)
        (maxVideos : Option Int) (file : DiskFile) (v : Nat),
      v ∈ FetchTranscripts.load_checkpoint file →
      v ∉ (FetchTranscripts.fetch_transcripts_run handler rawIds maxVideos
        file).calls) ∧
    (∀ (r : AnalyzeRunSpec) (f : DiskFile),
      fileKeys f ⊆ fileKeys (InferDemographics.analyzeInterrupt r.handler r.K
        r.profiles r.maxUsers r.stop f)) ∧
    fetchChain [⟨scenarioHandler, [0], none, 5⟩, ⟨scenarioHandler, [1], none, 5⟩]
      .missing = .table true [(1, 11)] ∧
    0 ∈ (FetchTranscripts.fetch_transcripts_run scenarioHandler [0, 1] none
      (fetchChain [⟨scenarioHandler, [0], none, 5⟩,
        ⟨scenarioHandler, [1], none, 5⟩] .missing)).calls := by
  refine ⟨?_, ?_, InferDemographics.analyze_no_reprocess, fetch_no_reprocess,
    ?_, by decide, by decide⟩
  · intro runs
    exact fetchChain_nodup runs .missing List.nodup_nil
  · intro runs hall
    exact analyzeChain_nodup runs .missing hall List.nodup_nil
  · intro r f
    exact InferDemographics.analyzeInterrupt_keys_mono r.handler r.K r.profiles
      r.maxUsers r.stop f

/-- Witness for C5: a concrete two-run analyze chain keeps the key column
duplicate-free and keeps the checkpointed key, and a checkpointed ID is not
attempted within the same run. -/
theorem claim_C5_witness :
    (fileKeys (analyzeChain [⟨scenarioHandler, 2, [0, 1], none, 9⟩,
      ⟨scenarioHandler, 2, [1, 2], none, 9⟩] .missing)).Nodup ∧
    0 ∉ (InferDemographics.analyze_demographics_run scenarioHandler 2 [0, 1]
      none (.table true [(0, 10)])).calls :=
  ⟨claim_C5.2.1 [⟨scenarioHandler, 2, [0, 1], none, 9⟩,
      ⟨scenarioHandler, 2, [1, 2], none, 9⟩] (by decide),
   claim_C5.2.2.1 scenarioHandler 2 [0, 1] none (.table true [(0, 10)]) 0
     (by decide)⟩

/-- Two analyze_demographics runs whose checkpoints read the same set of
IDs (and whose readable rows agree) process and write identically; the only
thing that can differ is the untouched file object in the nothing-to-do
case. -/
theorem analyze_run_congr (handler : Nat → Option Nat) (K : Nat)
    (profiles : List Nat) (maxUsers : Option Int) (f₁ f₂ : DiskFile)
    (h1 : InferDemographics.load_checkpoint f₁ =
      InferDemographics.load_checkpoint f₂)
    (h2 : InferDemographics.initRows f₁ = InferDemographics.initRows f₂) :
    (InferDemographics.analyze_demographics_run handler K profiles maxUsers
      f₁).results =
      (InferDemographics.analyze_demographics_run handler K profiles maxUsers
        f₂).results ∧
    (InferDemographics.analyze_demographics_run handler K profiles maxUsers
      f₁).flushes =
      (InferDemographics.analyze_demographics_run handler K profiles maxUsers
        f₂).flushes ∧
    (InferDemographics.analyze_demographics_run handler K profiles maxUsers
      f₁).calls =
      (InferDemographics.analyze_demographics_run handler K profiles maxUsers
        f₂).calls := by
  have htp : InferDemographics.toProcOf profiles maxUsers f₁ =
      InferDemographics.toProcOf profiles maxUsers f₂ := by
    unfold InferDemographics.toProcOf
    rw [h1]
  by_cases he : InferDemographics.toProcOf profiles maxUsers f₁ = []
  · rw [InferDemographics.analyze_run_empty handler K profiles maxUsers f₁ he,
      InferDemographics.analyze_run_empty handler K profiles maxUsers f₂
        (htp ▸ he)]
    exact ⟨rfl, rfl, rfl⟩
  · have he₂ : InferDemographics.toProcOf profiles maxUsers f₂ ≠ [] := htp ▸ he
    refine ⟨?_, ?_, ?_⟩
    · rw [InferDemographics.analyze_run_results handler K profiles maxUsers f₁ he,
        InferDemographics.analyze_run_results handler K profiles maxUsers f₂ he₂,
        htp, h2]
    · rw [InferDemographics.analyze_run_flushes handler K profiles maxUsers f₁ he,
        InferDemographics.analyze_run_flushes handler K profiles maxUsers f₂ he₂,
        htp, h2]
    · rw [InferDemographics.analyze_run_calls_eq,
        InferDemographics.analyze_run_calls_eq, htp]

/-- Two fetch_transcripts runs whose checkpoints read the same set of IDs
fetch and write identically. -/
theorem fetch_run_congr (handler : Nat → Option Nat) (rawIds : List Nat)
    (maxVideos : Option Int) (f₁ f₂ : DiskFile)
    (h1 : FetchTranscripts.load_checkpoint f₁ =
      FetchTranscripts.load_checkpoint f₂) :
    (FetchTranscripts.fetch_transcripts_run handler rawIds maxVideos
      f₁).entries =
      (FetchTranscripts.fetch_transcripts_run handler rawIds maxVideos
        f₂).entries ∧
    (FetchTranscripts.fetch_transcripts_run handler rawIds maxVideos
      f₁).saves =
      (FetchTranscripts.fetch_transcripts_run handler rawIds maxVideos
        f₂).saves ∧
    (FetchTranscripts.fetch_transcripts_run handler rawIds maxVideos
      f₁).calls =
      (FetchTranscripts.fetch_transcripts_run handler rawIds maxVideos
        f₂).calls := by
  have hacc : FetchTranscripts.fetchRunOn handler
      (FetchTranscripts.load_checkpoint f₁)
      (FetchTranscripts.limitVideos maxVideos (uniqueFirst rawIds)) =
      FetchTranscripts.fetchRunOn handler
        (FetchTranscripts.load_checkpoint f₂)
        (FetchTranscripts.limitVideos maxVideos (uniqueFirst rawIds)) := by
    rw [h1]
  exact ⟨congrArg FetchTranscripts.FetchAcc.entries hacc,
    congrArg FetchTranscripts.FetchAcc.saves hacc,
    congrArg FetchTranscripts.FetchAcc.calls hacc⟩

/-- C6: a corrupt/unreadable output file, or one without the key column,
loads as the empty checkpoint in both scripts, and any file whose
checkpoint loads empty makes the run behave exactly as if no output file
existed: same handler calls, same accumulated rows, same writes.  A
checkpoint-read problem is never fatal (the model functions are total and
return the no-checkpoint behavior). -/
theorem claim_C6 :
    (∀ rows : List (Nat × Nat),
      FetchTranscripts.load_checkpoint .unreadable = [] ∧
      FetchTranscripts.load_checkpoint (.table false rows) = [] ∧
      InferDemographics.load_checkpoint .unreadable = [] ∧
      InferDemographics.load_checkpoint (.table false rows) = []) ∧
    (∀ (handler : Nat → Option Nat) (K : Nat) (profiles : List Nat)
        (maxUsers : Option Int) (bad : DiskFile),
      InferDemographics.load_checkpoint bad = [] →
      (InferDemographics.analyze_demographics_run handler K profiles maxUsers
        bad).results =
        (InferDemographics.analyze_demographics_run handler K profiles maxUsers
          .missing).results ∧
      (InferDemographics.analyze_demographics_run handler K profiles maxUsers
        bad).flushes =
        (InferDemographics.analyze_demographics_run handler K profiles maxUsers
          .missing).flushes ∧
      (InferDemographics.analyze_demographics_run handler K profiles maxUsers
        bad).calls =
        (InferDemographics.analyze_demographics_run handler K profiles maxUsers
          .missing).calls) ∧
    (∀ (handler : Nat → Option Nat) (rawIds : List Nat)
        (maxVideos : Option Int) (bad : DiskFile),
      FetchTranscripts.load_checkpoint bad = [] →
      (FetchTranscripts.fetch_transcripts_run handler rawIds maxVideos
        bad).entries =
        (FetchTranscripts.fetch_transcripts_run handler rawIds maxVideos
          .missing).entries ∧
      (FetchTranscripts.fetch_transcripts_run handler rawIds maxVideos
        bad).saves =
        (FetchTranscripts.fetch_transcripts_run handler rawIds maxVideos
          .missing).saves ∧
      (FetchTranscripts.fetch_transcripts_run handler rawIds maxVideos
        bad).calls =
        (FetchTranscripts.fetch_transcripts_run handler rawIds maxVideos
          .missing).calls) := by
  refine ⟨fun rows => ⟨rfl, rfl, rfl, rfl⟩, ?_, ?_⟩
  · intro handler K profiles maxUsers bad hbad
    apply analyze_run_congr
    · rw [hbad]
      rfl
    · unfold InferDemographics.initRows
      rw [hbad]
      rfl
  · intro handler rawIds maxVideos bad hbad
    apply fetch_run_congr
    rw [hbad]
    rfl

/-- Witness for C6: a table without the key column behaves exactly like a
missing file on a concrete run of each processor. -/
theorem claim_C6_witness :
    (InferDemographics.analyze_demographics_run scenarioHandler 50 [0, 1] none
      (.table false [(3, 3)])).calls =
      (InferDemographics.analyze_demographics_run scenarioHandler 50 [0, 1] none
        .missing).calls ∧
    (FetchTranscripts.fetch_transcripts_run scenarioHandler [0, 1] none
      (.table false [(3, 3)])).saves =
      (FetchTranscripts.fetch_transcripts_run scenarioHandler [0, 1] none
        .missing).saves :=
  ⟨(claim_C6.2.1 scenarioHandler 50 [0, 1] none (.table false [(3, 3)])
      (by decide)).2.2,
   (claim_C6.2.2 scenarioHandler [0, 1] none (.table false [(3, 3)])
      (by decide)).2.1⟩

/-! ## Missing-credential handling

`scrape_comments` (youtube.py lines 247-249) and `summarize_videos`
(summarize_videos.py lines 102-106) check the API key at startup and abort
before any processing.  `fetch_user_profiles` (fetch_user_profiles.py lines
225-313) performs no `YOUTUBE_API_KEY` check: it builds the client with
whatever the environment held (line 271) and each keyless batch request
fails with an `HttpError` that `fetch_channel_details` (lines 134-184)
catches, returning `[]`, so the loop continues and the run completes. -/

/-- Outcome of starting a script: aborted with a reported configuration
error before any per-item processing, or ran to completion. -/
inductive RunOutcome (α : Type) where
  | configError : RunOutcome α
  | finished (a : α) : RunOutcome α
deriving DecidableEq

namespace Youtube

/-- The startup guard of `scrape_comments` (lines 247-249):
`if not API_KEY or API_KEY == "your_api_key_here"`, where `API_KEY` is
`os.getenv("YOUTUBE_API_KEY")` — `None` and the empty string are falsy. -/
def scrape_comments_start (key : Option String) : RunOutcome Unit :=
  if key = none ∨ key = some "" ∨ key = some "your_api_key_here" then
    .configError
  else .finished ()

end Youtube

namespace SummarizeVideos

/-- The startup guard of `summarize_videos` (summarize_videos.py lines
102-106): `api_key = os.getenv("OPENAI_API_KEY"); if not api_key: ...
return`. -/
def summarize_videos_start (key : Option String) : RunOutcome Unit :=
  if key = none ∨ key = some "" then .configError else .finished ()

end SummarizeVideos

namespace FetchUserProfiles

/-- Batches of `batch_size` consecutive items
(`for i in range(0, len(channel_ids), batch_size)`, lines 283-287), with an
explicit fuel argument so the definition computes by reduction; the fuel is
always instantiated with the list length. -/
def chunkAux (fuel n : Nat) (l : List Nat) : List (List Nat) :=
  match fuel, l with
  | 0, _ => []
  | _, [] => []
  | fuel + 1, l => l.take n :: chunkAux fuel n (l.drop n)

/-- The batches of 50 channel IDs processed by `fetch_user_profiles`. -/
def chunk50 (l : List Nat) : List (List Nat) := chunkAux l.length 50 l

/-- `fetch_channel_details` (lines 134-184): with no key the request raises
`HttpError`, which is caught and turned into `[]`; with a key the batch
endpoint (`api`) answers. -/
def fetch_channel_details (key : Option String)
    (api : String → List Nat → List (Nat × Nat)) (ids : List Nat) :
    List (Nat × Nat) :=
  match key with
  | none => []
  | some k => api k ids

/-- One iteration of the batch loop (lines 286-310): fetch the batch; if
nothing came back (`if channels:`) skip; otherwise extend the accumulated
results and save a checkpoint (full rewrite of the file). -/
def profileStep (key : Option String)
    (api : String → List Nat → List (Nat × Nat))
    (st : List (Nat × Nat) × DiskFile) (batch : List Nat) :
    List (Nat × Nat) × DiskFile :=
  let channels := fetch_channel_details key api batch
  if channels = [] then st
  else (st.1 ++ channels, .table true (st.1 ++ channels))

/-- Phase 1, `fetch_user_profiles` (lines 225-313), as a function of the
key found in the environment, the batch endpoint, the already-deduplicated
users from `get_unique_users`, the cap, and the output file.  There is no
key check: the function never returns `configError` because of a missing
key.  `load_checkpoint` and the `head(max_users)` cap are textually the
same code as in infer_demographics.py, so the model reuses those
definitions.  Returns the final file and the list of batches attempted. -/
def fetch_user_profiles_run (key : Option String)
    (api : String → List Nat → List (Nat × Nat)) (users : List Nat)
    (maxUsers : Option Int) (file : DiskFile) :
    RunOutcome (DiskFile × List (List Nat)) :=
  let processed := InferDemographics.load_checkpoint file
  let toProc := (InferDemographics.limitUsers maxUsers users).filter
    (notIn processed)
  if toProc = [] then .finished (file, [])
  else
    let init := if processed = [] then [] else fileRows file
    let batches := chunk50 toProc
    let result := batches.foldl (profileStep key api) (init, file)
    .finished (result.2, batches)

theorem profileStep_keyless (api : String → List Nat → List (Nat × Nat))
    (st : List (Nat × Nat) × DiskFile) (batch : List Nat) :
    profileStep none api st batch = st := rfl

theorem foldl_keyless (api : String → List Nat → List (Nat × Nat)) :
    ∀ (batches : List (List Nat)) (st : List (Nat × Nat) × DiskFile),
      batches.foldl (profileStep none api) st = st := by
  intro batches
  induction batches with
  | nil => intro st; rfl
  | cons b rest ih =>
    intro st
    rw [List.foldl_cons, profileStep_keyless]
    exact ih st

/-- A keyless phase-1 run never aborts: it completes, attempts every batch,
and (each batch failing and being skipped) leaves the file unchanged. -/
theorem fetch_user_profiles_keyless (api : String → List Nat → List (Nat × Nat))
    (users : List Nat) (maxUsers : Option Int) (file : DiskFile) :
    ∃ batches, fetch_user_profiles_run none api users maxUsers file =
      .finished (file, batches) := by
  unfold fetch_user_profiles_run
  by_cases he : (InferDemographics.limitUsers maxUsers users).filter
      (notIn (InferDemographics.load_checkpoint file)) = []
  · rw [if_pos he]
    exact ⟨[], rfl⟩
  · rw [if_neg he]
    refine ⟨chunk50 ((InferDemographics.limitUsers maxUsers users).filter
      (notIn (InferDemographics.load_checkpoint file))), ?_⟩
    show RunOutcome.finished
      ((List.foldl (profileStep none api) (_, file)
        (chunk50 ((InferDemographics.limitUsers maxUsers users).filter
          (notIn (InferDemographics.load_checkpoint file))))).2,
       chunk50 ((InferDemographics.limitUsers maxUsers users).filter
          (notIn (InferDemographics.load_checkpoint file)))) = _
    rw [foldl_keyless]

end FetchUserProfiles

/-- A stand-in batch endpoint used in concrete C7 runs. -/
def apiStub : String → List Nat → List (Nat × Nat) :=
  fun _ ids => ids.map (fun v => (v, v + 10))

/-- C7, refutation of the claim as stated: a phase-1 `fetch_user_profiles`
run with `YOUTUBE_API_KEY` absent does not terminate as a configuration
error before per-item processing — it attempts its batch (the batch list is
nonempty) and completes, with every batch failing and nothing written. -/
theorem claim_C7_counterexample :
    FetchUserProfiles.fetch_user_profiles_run none apiStub [0, 1] none
      .missing = .finished (.missing, [[0, 1]]) ∧
    FetchUserProfiles.fetch_user_profiles_run none apiStub [0, 1] none
      .missing ≠ .configError := by
  refine ⟨by decide, by decide⟩

/-- C7, amended: youtube.py and summarize_videos.py treat an absent (or
empty, or placeholder) API key as a fatal configuration error before any
per-item processing; fetch_user_profiles.py performs no such check — with
the key absent it proceeds into the batch loop, every batch fails as a
caught per-batch error, and the run completes leaving the file unchanged. -/
theorem claim_C7 :
    Youtube.scrape_comments_start none = .configError ∧
    Youtube.scrape_comments_start (some "") = .configError ∧
    Youtube.scrape_comments_start (some "your_api_key_here") = .configError ∧
    SummarizeVideos.summarize_videos_start none = .configError ∧
    SummarizeVideos.summarize_videos_start (some "") = .configError ∧
    (∀ (api : String → List Nat → List (Nat × Nat)) (users : List Nat)
        (maxUsers : Option Int) (file : DiskFile),
      ∃ batches, FetchUserProfiles.fetch_user_profiles_run none api users
        maxUsers file = .finished (file, batches)) :=
  ⟨rfl, rfl, rfl, rfl, rfl, FetchUserProfiles.fetch_user_profiles_keyless⟩

/-- C8, refutation of the claim as stated: a supplied cap of `0` is falsy
(`max_videos > 0` fails / `if max_users:` is false), so the scripts process
every item rather than at most zero. -/
theorem claim_C8_counterexample :
    (FetchTranscripts.fetch_transcripts_run scenarioHandler [0, 1, 2] (some 0)
      .missing).calls.length = 3 ∧
    ¬((FetchTranscripts.fetch_transcripts_run scenarioHandler [0, 1, 2] (some 0)
      .missing).calls.length ≤ 0) ∧
    (InferDemographics.analyze_demographics_run scenarioHandler 50 [0, 1, 2]
      (some 0) .missing).calls.length = 3 := by
  refine ⟨by decide, by decide, by decide⟩

/-- C8, amended: the capped scripts process at most `n` items whenever the
supplied cap `n` is positive; a cap of `0` disables the limit and every
item is processed. -/
theorem claim_C8 :
    (∀ (handler : Nat → Option Nat) (rawIds : List Nat) (n : Int)
        (file : DiskFile),
      0 < n →
      (FetchTranscripts.fetch_transcripts_run handler rawIds (some n)
        file).calls.length ≤ n.toNat) ∧
    (∀ (handler : Nat → Option Nat) (K : Nat) (profiles : List Nat) (n : Int)
        (file : DiskFile),
      0 < n →
      (InferDemographics.analyze_demographics_run handler K profiles (some n)
        file).calls.length ≤ n.toNat) ∧
    (∀ rawIds : List Nat,
      FetchTranscripts.limitVideos (some 0) rawIds = rawIds) ∧
    (∀ profiles : List Nat,
      InferDemographics.limitUsers (some 0) profiles = profiles) := by
  refine ⟨?_, ?_, ?_, ?_⟩
  · intro handler rawIds n file hn
    rw [FetchTranscripts.fetch_run_calls]
    have hlimit : FetchTranscripts.limitVideos (some n) (uniqueFirst rawIds) =
        (uniqueFirst rawIds).take n.toNat := by
      show (if 0 < n then (uniqueFirst rawIds).take n.toNat else _) = _
      rw [if_pos hn]
    calc (List.filter (notIn (FetchTranscripts.load_checkpoint file))
          (FetchTranscripts.limitVideos (some n) (uniqueFirst rawIds))).length
        ≤ (FetchTranscripts.limitVideos (some n) (uniqueFirst rawIds)).length :=
          List.length_filter_le _ _
      _ ≤ n.toNat := by rw [hlimit]; exact (List.length_take_le _ _)
  · intro handler K profiles n file hn
    rw [InferDemographics.analyze_run_calls_eq]
    have hne : n ≠ 0 := by omega
    have hlimit : InferDemographics.limitUsers (some n) profiles =
        profiles.take n.toNat := by
      show (if n = 0 then profiles else InferDemographics.headPd n profiles) = _
      rw [if_neg hne]
      unfold InferDemographics.headPd
      rw [if_pos (by omega)]
    calc (InferDemographics.toProcOf profiles (some n) file).length
        ≤ (InferDemographics.limitUsers (some n) profiles).length :=
          List.length_filter_le _ _
      _ ≤ n.toNat := by rw [hlimit]; exact (List.length_take_le _ _)
  · intro rawIds
    show (if (0 : Int) < 0 then rawIds.take (0 : Int).toNat else rawIds) = rawIds
    rw [if_neg (by omega)]
  · intro profiles
    show (if (0 : Int) = 0 then profiles
      else InferDemographics.headPd 0 profiles) = profiles
    rw [if_pos rfl]

/-- Witness for C8: with a cap of 2 over three items, at most two handler
calls happen, in both processors. -/
theorem claim_C8_witness :
    (FetchTranscripts.fetch_transcripts_run scenarioHandler [0, 1, 2] (some 2)
      .missing).calls.length ≤ (2 : Int).toNat ∧
    (InferDemographics.analyze_demographics_run scenarioHandler 50 [0, 1, 2]
      (some 2) .missing).calls.length ≤ (2 : Int).toNat :=
  ⟨claim_C8.1 scenarioHandler [0, 1, 2] 2 .missing (by decide),
   claim_C8.2.1 scenarioHandler 50 [0, 1, 2] 2 .missing (by decide)⟩

end CongestionPricing
